import Mathlib

/-
  Verification of the item pile mutation coordinator and the transfer
  reconciliation engine of the FoundryVTT-ItemPiles module, embedded
  shallowly from src/scripts/api.js.

  Modelling conventions:
  * Item quantities are integers (the data model declares quantities to be
    non-negative integers); identity fields (document id, name, the
    configured type attribute) are natural numbers.
  * The Foundry embedded-document store (createEmbeddedDocuments,
    updateEmbeddedDocuments, deleteEmbeddedDocuments) is modelled as pure
    list transformations keyed by document id: an update rewrites the
    quantity of every line with the given id, a create appends the given
    document, a delete drops every line with the given id.  Batched calls
    apply their entries left to right.
  * Hook consumers are modelled by a record of booleans (false means some
    consumer vetoed); sounds, macros and broadcast hooks are recorded as an
    effect list.
-/

namespace ItemPiles

/-- Embedded item document: identity key (document id, name, type
attribute) plus the tracked quantity attribute. -/
structure Item where
  id : Nat
  name : Nat
  itype : Nat
  quantity : Int
deriving DecidableEq, Repr

/-- An actor inventory: the list of embedded item documents, in document
source order. -/
abbrev Inventory := List Item

/-- Document lookup by id (targetActor.items.get). -/
def findItem (inv : Inventory) (i : Nat) : Option Item :=
  inv.find? (fun it => it.id == i)

/-- Quantity of the line with the given id, zero when no such line
exists. -/
def qtyOrZero (inv : Inventory) (i : Nat) : Int :=
  match findItem inv i with
  | some it => it.quantity
  | none => 0

/-- Total quantity held across all lines with the given name and type
attribute (the item type identity of the data model). -/
def totalQty (inv : Inventory) (nm t : Nat) : Int :=
  ((inv.filter (fun it => it.name == nm && it.itype == t)).map Item.quantity).sum

/-- One entry of updateEmbeddedDocuments("Item", ...): the target id and
the new value of the quantity attribute. -/
def applyUpdate (inv : Inventory) (u : Nat × Int) : Inventory :=
  inv.map (fun it => if it.id == u.1 then { it with quantity := u.2 } else it)

/-- TransferRecord produced by API._removeItems for one request entry. -/
structure RemovedRec where
  item : Item
  quantity : Int
  deleted : Bool
deriving DecidableEq, Repr

/-- TransferRecord produced by API._addItems for one resulting line. -/
structure AddedRec where
  item : Item
  quantity : Int
deriving DecidableEq, Repr

/-- Loop body of API._removeItems (api.js lines 1027-1055): for each
request (id, quantity) the current quantity is read from the target
actor items (unchanged during the loop, since the queued updates and
deletes are only applied after it), newQuantity = max(0, current -
requested); when newQuantity is at least 1 an update is queued and the
record reports the requested quantity with deleted = false, otherwise a
delete is queued and the record reports the current quantity with
deleted = true.  Returns none when a requested id is not present (the
source would fail on reading the missing document). -/
def removeLoop (inv : Inventory) :
    List (Nat × Int) → Option (List RemovedRec × List (Nat × Int) × List Nat)
  | [] => some ([], [], [])
  | (i, r) :: rest =>
    match findItem inv i with
    | none => none
    | some it =>
      match removeLoop inv rest with
      | none => none
      | some (recs, ups, dels) =>
        let c := it.quantity
        let newQ := max 0 (c - r)
        if 1 ≤ newQ then
          some (⟨{ it with quantity := r }, r, false⟩ :: recs, (i, newQ) :: ups, dels)
        else
          some (⟨{ it with quantity := c }, c, true⟩ :: recs, ups, i :: dels)

/-- API._removeItems (api.js lines 1017-1086), document mutation part:
run the loop, then apply the queued updates, then the queued deletes. -/
def removeItems (inv : Inventory) (reqs : List (Nat × Int)) :
    Option (Inventory × List RemovedRec) :=
  match removeLoop inv reqs with
  | none => none
  | some (recs, ups, dels) =>
    some ((ups.foldl applyUpdate inv).filter (fun it => !(dels.contains it.id)), recs)

/-- Modelled from the spec: lib.getSimilarItem is imported by api.js from
src/scripts/lib/lib.js, which is not among the sources under
verification.  The spec describes the matching rule as: a line matches
when it has the same id OR the same name and type attribute, and when
several lines could match, the first one in source order wins. -/
def getSimilarItem (items : Inventory) (itemId nm t : Nat) : Option Item :=
  items.find? (fun it => it.id == itemId || (it.name == nm && it.itype == t))

/-- Loop body of API._addItems (api.js lines 896-927): matching is done
against the snapshot of the target actor items taken before the loop;
a match queues an update to current + incoming and immediately records
the incoming quantity; no match queues a create of the item with its
quantity attribute set to the incoming quantity.  Returns (matched
records, queued updates, queued creates). -/
def addLoop (snapshot : Inventory) :
    List (Item × Int) → List AddedRec × List (Nat × Int) × List Item
  | [] => ([], [], [])
  | (itm, q) :: rest =>
    let res := addLoop snapshot rest
    match getSimilarItem snapshot itm.id itm.name itm.itype with
    | some found =>
      let newQ := found.quantity + q
      (⟨{ found with quantity := newQ }, q⟩ :: res.1, (found.id, newQ) :: res.2.1, res.2.2)
    | none =>
      (res.1, res.2.1, { itm with quantity := q } :: res.2.2)

/-- API._addItems (api.js lines 884-960), document mutation part: run the
loop, create the queued documents, then apply the queued updates; the
returned records are the matched records in loop order followed by one
record per created document reporting its initial quantity. -/
def addItems (inv : Inventory) (items : List (Item × Int)) :
    Inventory × List AddedRec :=
  let res := addLoop inv items
  (res.2.1.foldl applyUpdate (inv ++ res.2.2),
   res.1 ++ res.2.2.map (fun it => ⟨it, it.quantity⟩))

/-- API._transferItems (api.js lines 1149-1182): remove from the source,
then add the actually-removed records (item plus actually-removed
quantity) to the target; returns the records of the add step. -/
def transferItems (src tgt : Inventory) (reqs : List (Nat × Int)) :
    Option (Inventory × Inventory × List AddedRec) :=
  match removeItems src reqs with
  | none => none
  | some (src2, removed) =>
    let added := addItems tgt (removed.map (fun rc => (rc.item, rc.quantity)))
    some (src2, added.1, added.2)

/-- Round trip of the public transferItems API: transfer the requested
entries from A to B, then feed the returned records (which the public
entry point maps to pairs of the record item id and the record
quantity, api.js lines 1108-1133) back from B to A.  Returns the final
(A, B) inventories. -/
def roundTrip (A B : Inventory) (reqs : List (Nat × Int)) :
    Option (Inventory × Inventory) :=
  match transferItems A B reqs with
  | none => none
  | some (A2, B2, added) =>
    match transferItems B2 A2 (added.map (fun rc => (rc.item.id, rc.quantity))) with
    | none => none
    | some (B3, A3, _) => some (A3, B3)

/- ------------------------------------------------------------------ -/
/- Characterization helpers for the reconciliation engine.  These are  -/
/- proof-side description functions (not source translations): they    -/
/- name the per-request outcome of the loops above so that the         -/
/- round-trip theorem can be stated and proved.                        -/
/- ------------------------------------------------------------------ -/

/-- Net effect of one queued-update list on one line: the last queued
update for the line id wins; with distinct update keys this is the
unique update, found here by key lookup. -/
def updApply (ups : List (Nat × Int)) (it : Item) : Item :=
  match ups.find? (fun u => u.1 == it.id) with
  | none => it
  | some u => { it with quantity := u.2 }

/-- Record produced by the removeItems loop for one request entry. -/
def remRec (inv : Inventory) (p : Nat × Int) : RemovedRec :=
  match findItem inv p.1 with
  | none => ⟨⟨0, 0, 0, 0⟩, 0, true⟩
  | some it =>
    if 1 ≤ max 0 (it.quantity - p.2) then ⟨{ it with quantity := p.2 }, p.2, false⟩
    else ⟨it, it.quantity, true⟩

/-- Update queued by the removeItems loop for one request entry. -/
def remUp (inv : Inventory) (p : Nat × Int) : Option (Nat × Int) :=
  match findItem inv p.1 with
  | none => none
  | some it =>
    if 1 ≤ max 0 (it.quantity - p.2) then some (p.1, max 0 (it.quantity - p.2)) else none

/-- Delete queued by the removeItems loop for one request entry. -/
def remDel (inv : Inventory) (p : Nat × Int) : Option Nat :=
  match findItem inv p.1 with
  | none => none
  | some it =>
    if 1 ≤ max 0 (it.quantity - p.2) then none else some p.1

/-- Net effect of one removeItems call on one line (valid when line ids
and request ids are free of duplicates): untouched, reduced, or
deleted. -/
def remLine (reqs : List (Nat × Int)) (it : Item) : Option Item :=
  match reqs.find? (fun p => p.1 == it.id) with
  | none => some it
  | some p =>
    if 1 ≤ max 0 (it.quantity - p.2) then some { it with quantity := max 0 (it.quantity - p.2) }
    else none

/-- The source line a transfer request addresses. -/
def reqLine (inv : Inventory) (p : Nat × Int) : Item :=
  match findItem inv p.1 with
  | some it => it
  | none => ⟨0, 0, 0, 0⟩

/-- Whether the addressed line survives the removal. -/
def reqKeeps (inv : Inventory) (p : Nat × Int) : Bool :=
  decide (1 ≤ max 0 ((reqLine inv p).quantity - p.2))

/-- The quantity actually removed for one request (the requested amount
when the line survives, the full current quantity otherwise). -/
def reqMoved (inv : Inventory) (p : Nat × Int) : Int :=
  if reqKeeps inv p then p.2 else (reqLine inv p).quantity

/-- The name and type attribute pair: the item type identity. -/
def pairOf (it : Item) : Nat × Nat := (it.name, it.itype)

/-- Identity and quantity of a line, forgetting the document id. -/
def stripId (it : Item) : (Nat × Nat) × Int := (pairOf it, it.quantity)

/-- Match performed by the addItems loop for one incoming entry. -/
def addMatch (snapshot : Inventory) (pr : Item × Int) : Option Item :=
  getSimilarItem snapshot pr.1.id pr.1.name pr.1.itype

/-- Update queued by the addItems loop for one incoming entry. -/
def addUp (snapshot : Inventory) (pr : Item × Int) : Option (Nat × Int) :=
  (addMatch snapshot pr).map (fun f => (f.id, f.quantity + pr.2))

/-- Create queued by the addItems loop for one incoming entry. -/
def addCreate (snapshot : Inventory) (pr : Item × Int) : Option Item :=
  match addMatch snapshot pr with
  | some _ => none
  | none => some { pr.1 with quantity := pr.2 }

/-- Record pushed by the addItems loop for one matched incoming entry. -/
def addRecM (snapshot : Inventory) (pr : Item × Int) : Option AddedRec :=
  (addMatch snapshot pr).map
    (fun f => ⟨{ f with quantity := f.quantity + pr.2 }, pr.2⟩)

/-- The line of the target that a removed record merges into during a
transfer (when the document ids of the two sides are disjoint the id
disjunct of the matching rule never fires, so only the name and type
pair decides). -/
def fwdMatch (A B : Inventory) (p : Nat × Int) : Option Item :=
  B.find? (fun b => b.name == (reqLine A p).name && b.itype == (reqLine A p).itype)

/-- Update queued on the target for one transferred record. -/
def fwdUp (A B : Inventory) (p : Nat × Int) : Option (Nat × Int) :=
  (fwdMatch A B p).map (fun m => (m.id, m.quantity + reqMoved A p))

/-- Create queued on the target for one transferred record. -/
def fwdCreate (A B : Inventory) (p : Nat × Int) : Option Item :=
  match fwdMatch A B p with
  | some _ => none
  | none => some { reqLine A p with quantity := reqMoved A p }

/-- Returned record of the transfer for one request that merged into an
existing target line. -/
def fwdRec (A B : Inventory) (p : Nat × Int) : Option AddedRec :=
  (fwdMatch A B p).map
    (fun m => ⟨{ m with quantity := m.quantity + reqMoved A p }, reqMoved A p⟩)

/-- Removal request of the return transfer derived from a merged record. -/
def retReqM (A B : Inventory) (p : Nat × Int) : Option (Nat × Int) :=
  (fwdMatch A B p).map (fun m => (m.id, reqMoved A p))

/-- Removal request of the return transfer derived from a created record. -/
def retReqC (A B : Inventory) (p : Nat × Int) : Option (Nat × Int) :=
  match fwdMatch A B p with
  | some _ => none
  | none => some ((reqLine A p).id, reqMoved A p)

/-- All updates the forward add queues on the target. -/
def fwdUps (A B : Inventory) (reqs : List (Nat × Int)) : List (Nat × Int) :=
  reqs.filterMap (fwdUp A B)

/-- All creates the forward add queues on the target. -/
def fwdCreates (A B : Inventory) (reqs : List (Nat × Int)) : Inventory :=
  reqs.filterMap (fwdCreate A B)

/-- The target inventory after the forward leg of the transfer. -/
def targetAfter (A B : Inventory) (reqs : List (Nat × Int)) : Inventory :=
  B.map (updApply (fwdUps A B reqs)) ++ fwdCreates A B reqs

/-- The removal requests of the return leg (the public transferItems maps
every returned record to the pair of its item id and its quantity,
merged records first, created records after). -/
def retReqs (A B : Inventory) (reqs : List (Nat × Int)) : List (Nat × Int) :=
  reqs.filterMap (retReqM A B) ++ reqs.filterMap (retReqC A B)

/-- Ids of the target lines the forward transfer merged into. -/
def matchedKeys (A B : Inventory) (reqs : List (Nat × Int)) : List Nat :=
  reqs.filterMap (fun p => (fwdMatch A B p).map Item.id)

/-- Incoming entry of the return add derived from a merged record. -/
def retItemM (A B : Inventory) (p : Nat × Int) : Option (Item × Int) :=
  (fwdMatch A B p).map
    (fun m => ((⟨m.id, m.name, m.itype, reqMoved A p⟩ : Item), reqMoved A p))

/-- Incoming entry of the return add derived from a created record. -/
def retItemC (A B : Inventory) (p : Nat × Int) : Option (Item × Int) :=
  match fwdMatch A B p with
  | some _ => none
  | none => some (({ reqLine A p with quantity := reqMoved A p } : Item), reqMoved A p)

/-- All incoming entries of the return add. -/
def retItems (A B : Inventory) (reqs : List (Nat × Int)) : List (Item × Int) :=
  reqs.filterMap (retItemM A B) ++ reqs.filterMap (retItemC A B)

/-- Whether a source line is removed entirely by the request list. -/
def lineDead (reqs : List (Nat × Int)) (a : Item) : Bool :=
  (remLine reqs a).isNone

/-- The surviving source line for one request after the forward removal. -/
def descLine (A : Inventory) (p : Nat × Int) : Item :=
  { reqLine A p with quantity := max 0 ((reqLine A p).quantity - p.2) }

/-- Update queued on the source by the return add for a merged record. -/
def retUpM (A B : Inventory) (p : Nat × Int) : Option (Nat × Int) :=
  match fwdMatch A B p with
  | some _ => if reqKeeps A p then some (p.1, (reqLine A p).quantity) else none
  | none => none

/-- Update queued on the source by the return add for a created record. -/
def retUpC (A B : Inventory) (p : Nat × Int) : Option (Nat × Int) :=
  match fwdMatch A B p with
  | some _ => none
  | none => if reqKeeps A p then some (p.1, (reqLine A p).quantity) else none

/-- Create queued on the source by the return add for a merged record. -/
def retCreateM (A B : Inventory) (p : Nat × Int) : Option Item :=
  match fwdMatch A B p with
  | some m =>
    if reqKeeps A p then none
    else some (⟨m.id, m.name, m.itype, reqMoved A p⟩ : Item)
  | none => none

/-- Create queued on the source by the return add for a created record. -/
def retCreateC (A B : Inventory) (p : Nat × Int) : Option Item :=
  match fwdMatch A B p with
  | some _ => none
  | none =>
    if reqKeeps A p then none
    else some ({ reqLine A p with quantity := reqMoved A p } : Item)

/-- All updates the return add queues on the source. -/
def retUps (A B : Inventory) (reqs : List (Nat × Int)) : List (Nat × Int) :=
  reqs.filterMap (retUpM A B) ++ reqs.filterMap (retUpC A B)

/-- All creates the return add queues on the source. -/
def retCreates (A B : Inventory) (reqs : List (Nat × Int)) : Inventory :=
  reqs.filterMap (retCreateM A B) ++ reqs.filterMap (retCreateC A B)

/-- The source line surviving the round trip for one source line (the
line restored to its original quantity), or none when the line was
removed entirely and recreated under a fresh document id. -/
def surviveLine (reqs : List (Nat × Int)) (a : Item) : Option Item :=
  if lineDead reqs a then none else some a

/-- The source lines removed entirely by the forward leg, enumerated in
request order. -/
def deadLines (A : Inventory) (reqs : List (Nat × Int)) : Inventory :=
  reqs.filterMap (fun p => if reqKeeps A p then none else some (reqLine A p))

/-- Contribution of one stripped line to the total of one identity. -/
def stripQty (nm t : Nat) (s : (Nat × Nat) × Int) : Int :=
  if s.1.1 = nm ∧ s.1.2 = t then s.2 else 0

/- ------------------------------------------------------------------ -/
/- Pile data, the container state machine, and the update pipeline.    -/
/- ------------------------------------------------------------------ -/

/-- Tri-state deleteWhenEmpty flag of the pile data: explicit true,
explicit false, or unset (deferring to the global module setting
deleteEmptyPiles). -/
inductive DeleteWhenEmpty
  | unset
  | yes
  | no
deriving DecidableEq, Repr

/-- Pile configuration flag data, as read by lib.getItemPileData.  The
three sound fields record whether the corresponding sound resource is
configured; hasMacro records whether a macro name is configured. -/
structure PileData where
  enabled : Bool
  isContainer : Bool
  closed : Bool
  locked : Bool
  openSound : Bool
  closeSound : Bool
  lockedSound : Bool
  hasMacro : Bool
  deleteWhenEmpty : DeleteWhenEmpty
deriving DecidableEq, Repr

/-- Shallow diff of two pile data records (foundry.utils.diffObject):
each field is none when unchanged and carries the new value when
changed. -/
structure PileDiff where
  enabled : Option Bool
  isContainer : Option Bool
  closed : Option Bool
  locked : Option Bool
  openSound : Option Bool
  closeSound : Option Bool
  lockedSound : Option Bool
  hasMacro : Option Bool
  deleteWhenEmpty : Option DeleteWhenEmpty
deriving DecidableEq, Repr

/-- One field of the shallow diff. -/
def diffField {α : Type} [DecidableEq α] (o n : α) : Option α :=
  if o = n then none else some n

/-- foundry.utils.diffObject on pile data: only actually-changed keys
appear, with their new values. -/
def diffPile (o n : PileData) : PileDiff :=
  ⟨diffField o.enabled n.enabled, diffField o.isContainer n.isContainer,
   diffField o.closed n.closed, diffField o.locked n.locked,
   diffField o.openSound n.openSound, diffField o.closeSound n.closeSound,
   diffField o.lockedSound n.lockedSound, diffField o.hasMacro n.hasMacro,
   diffField o.deleteWhenEmpty n.deleteWhenEmpty⟩

/-- The empty diff (foundry.utils.isObjectEmpty). -/
def emptyDiff : PileDiff := ⟨none, none, none, none, none, none, none, none, none⟩

/-- Observable side effects of the pile operations: sounds played,
pile macros executed, and the broadcast (post-operation) hooks. -/
inductive Effect
  | soundOpen
  | soundClose
  | soundLocked
  | macroRunClose
  | macroRunLock
  | macroRunUnlock
  | macroRunOpen
  | hookUpdated
  | hookClosed
  | hookLocked
  | hookUnlocked
  | hookOpened
  | hookRattled
deriving DecidableEq, Repr

/-- Return values of the cancelable pre-operation hooks: a field is false
when some consumer vetoed the corresponding hook (Hooks.call returned
false). -/
structure HookEnv where
  preOpen : Bool
  preClose : Bool
  preLock : Bool
  preUnlock : Bool
  preUpdate : Bool
deriving DecidableEq, Repr

/-- Hook environment in which no consumer vetoes anything. -/
def allowAll : HookEnv := ⟨true, true, true, true, true⟩

/-- Result of a pile state operation.  notApplicable models the silent
precondition failure (the source returns false when the target is not
an enabled container); vetoed models a pre-operation hook returning
false (the source returns undefined before any mutation); done carries
the persisted pile data, the broadcast diff and the effect list. -/
inductive OpResult
  | notApplicable
  | vetoed
  | done (d : PileData) (diff : PileDiff) (effects : List Effect)
deriving DecidableEq, Repr

/-- Macro side effects of API._updateItemPile (api.js lines 580-609):
executed on the GM side after persistence when the merged data is an
enabled container, once per boolean transition present in the diff;
API._executeItemPileMacro is a no-op without a configured macro. -/
def macroEffects (d : PileData) (diff : PileDiff) : List Effect :=
  if d.enabled && d.isContainer && d.hasMacro then
    (if diff.closed = some true then [Effect.macroRunClose] else []) ++
    (if diff.locked = some true then [Effect.macroRunLock] else []) ++
    (if diff.locked = some false then [Effect.macroRunUnlock] else []) ++
    (if diff.closed = some false then [Effect.macroRunOpen] else [])
  else []

/-- Broadcast hooks of API._updatedItemPile (api.js lines 617-643): when
the diff is empty nothing fires; otherwise the UPDATE hook fires, then
for an enabled container one hook per boolean transition in the diff. -/
def broadcastEffects (d : PileData) (diff : PileDiff) : List Effect :=
  if diff = emptyDiff then []
  else
    Effect.hookUpdated ::
      (if d.enabled && d.isContainer then
        (if diff.closed = some true then [Effect.hookClosed] else []) ++
        (if diff.locked = some true then [Effect.hookLocked] else []) ++
        (if diff.locked = some false then [Effect.hookUnlocked] else []) ++
        (if diff.closed = some false then [Effect.hookOpened] else [])
      else [])

/-- API.updateItemPile composed with API._updateItemPile and the
broadcast API._updatedItemPile (api.js lines 543-643): the PRE_UPDATE
hook may veto; otherwise the new data is merged over the old data (the
state operations pass the complete mutated data object, so the merge
result is that object), the diff is computed from the pre-mutation
snapshot against the merge result, the merged data is persisted, and
the macro and broadcast effects fire. -/
def updateItemPile (hooks : HookEnv) (old newData : PileData) : OpResult :=
  if !hooks.preUpdate then OpResult.vetoed
  else
    let diff := diffPile old newData
    OpResult.done newData diff (macroEffects newData diff ++ broadcastEffects newData diff)

/-- Sound effects of a state operation precede the effects of the update
pipeline it then runs (the sound plays before API.updateItemPile is
awaited); on a veto or precondition failure nothing is reported. -/
def prependEffects (pre : List Effect) : OpResult → OpResult
  | OpResult.done d diff effs => OpResult.done d diff (pre ++ effs)
  | r => r

/-- API.openItemPile (api.js lines 334-354): requires an enabled
container; clears closed and locked; when the pile was locked the
PRE_UNLOCK hook may veto first, then PRE_OPEN may veto; the open sound
plays when the pile was closed and a sound is configured; then the
update pipeline runs. -/
def openItemPile (hooks : HookEnv) (d : PileData) : OpResult :=
  if !(d.enabled && d.isContainer) then OpResult.notApplicable
  else
    let wasLocked := d.locked
    let wasClosed := d.closed
    let d2 := { d with closed := false, locked := false }
    if wasLocked && !hooks.preUnlock then OpResult.vetoed
    else if !hooks.preOpen then OpResult.vetoed
    else
      let sounds := if wasClosed && d2.openSound then [Effect.soundOpen] else []
      prependEffects sounds (updateItemPile hooks d d2)

/-- API.closeItemPile (api.js lines 364-378): requires an enabled
container; sets closed; PRE_CLOSE may veto; the close sound plays only
when the pile was not already closed; then the update pipeline runs. -/
def closeItemPile (hooks : HookEnv) (d : PileData) : OpResult :=
  if !(d.enabled && d.isContainer) then OpResult.notApplicable
  else
    let wasClosed := d.closed
    let d2 := { d with closed := true }
    if !hooks.preClose then OpResult.vetoed
    else
      let sounds := if !wasClosed && d2.closeSound then [Effect.soundClose] else []
      prependEffects sounds (updateItemPile hooks d d2)

/-- API.lockItemPile (api.js lines 410-429): requires an enabled
container; sets closed and locked; when the pile was not already closed
the PRE_CLOSE hook may veto first, then PRE_LOCK may veto; the close
sound plays when the pile was open; then the update pipeline runs. -/
def lockItemPile (hooks : HookEnv) (d : PileData) : OpResult :=
  if !(d.enabled && d.isContainer) then OpResult.notApplicable
  else
    let wasClosed := d.closed
    let d2 := { d with closed := true, locked := true }
    if !wasClosed && !hooks.preClose then OpResult.vetoed
    else if !hooks.preLock then OpResult.vetoed
    else
      let sounds := if !wasClosed && d2.closeSound then [Effect.soundClose] else []
      prependEffects sounds (updateItemPile hooks d d2)

/-- API.unlockItemPile (api.js lines 439-448): requires an enabled
container; clears locked.  The source invokes Hooks.call(PRE_UNLOCK)
but, unlike every sibling operation, does not check the returned value,
so a veto of that hook has no effect here; only the PRE_UPDATE veto
inside the update pipeline can still stop the mutation. -/
def unlockItemPile (hooks : HookEnv) (d : PileData) : OpResult :=
  if !(d.enabled && d.isContainer) then OpResult.notApplicable
  else
    updateItemPile hooks d { d with locked := false }

/-- API.rattleItemPile (api.js lines 478-490): requires an enabled,
locked container; plays the locked sound when configured and broadcasts
the RATTLE hook; the pile data is not mutated.  The PRE_RATTLE hook is
invoked but its result is not checked. -/
def rattleItemPile (d : PileData) : OpResult :=
  if !(d.enabled && d.isContainer && d.locked) then OpResult.notApplicable
  else
    OpResult.done d emptyDiff
      ((if d.lockedSound then [Effect.soundLocked] else []) ++ [Effect.hookRattled])

/-- API.isItemPileLocked (api.js lines 499-504): false unless the pile is
an enabled container. -/
def isItemPileLocked (d : PileData) : Bool :=
  d.enabled && d.isContainer && d.locked

/-- API.isItemPileClosed (api.js lines 513-518): false unless the pile is
an enabled container. -/
def isItemPileClosed (d : PileData) : Bool :=
  d.enabled && d.isContainer && d.closed

/-- Container interaction branch of API._itemPileClicked (api.js lines
2156-2217), for a click with a valid interacting token in range (token
selection and distance are resolved by external collaborators and are
not modelled): a disabled pile is ignored; on a container, a locked
pile rattles for a non-GM user, an unlocked closed pile is opened, and
otherwise only the inventory UI is shown (no state change). -/
def itemPileClickedContainer (hooks : HookEnv) (isGM : Bool) (d : PileData) : OpResult :=
  if !d.enabled then OpResult.notApplicable
  else if d.isContainer then
    if d.locked && !isGM then rattleItemPile d
    else if d.closed then openItemPile hooks d
    else OpResult.done d emptyDiff []
  else OpResult.done d emptyDiff []

/- ------------------------------------------------------------------ -/
/- Pile emptiness and the auto-deletion rule.                          -/
/- ------------------------------------------------------------------ -/

/-- A pile document: its flag data, its item inventory, its attribute
pools (dotted path mapped to value), and whether the underlying
document is a token document (the only kind auto-deletion applies to). -/
structure Pile where
  data : PileData
  inv : Inventory
  attributes : List (Nat × Int)
  isTokenDocument : Bool
deriving DecidableEq, Repr

/-- Modelled from the spec: lib.isItemPileEmpty is imported from
src/scripts/lib/lib.js, which is not among the sources under
verification.  The spec defines emptiness as holding zero items and
zero positive attributes. -/
def isItemPileEmpty (p : Pile) : Bool :=
  p.inv.isEmpty && p.attributes.all (fun a => decide (a.2 ≤ 0))

/-- Resolution of the tri-state deleteWhenEmpty flag against the global
deleteEmptyPiles setting (api.js lines 2232-2236). -/
def resolveDeleteWhenEmpty (globalDefault : Bool) : DeleteWhenEmpty → Bool
  | DeleteWhenEmpty.unset => globalDefault
  | DeleteWhenEmpty.yes => true
  | DeleteWhenEmpty.no => false

/-- API._checkItemPileShouldBeDeleted (api.js lines 2224-2240): true iff
the document is a token document, the pile is enabled, deleteWhenEmpty
resolves to true, and the pile is empty. -/
def checkItemPileShouldBeDeleted (globalDefault : Bool) (p : Pile) : Bool :=
  p.isTokenDocument && (p.data.enabled &&
    (resolveDeleteWhenEmpty globalDefault p.data.deleteWhenEmpty && isItemPileEmpty p))

/-- API._removeItems on a pile outside any transfer (isTransfer = false,
api.js lines 1062-1082): after the removal the auto-delete check runs
and, when it fires, the pile document is deleted.  Returns none when
a requested id is missing, otherwise the surviving pile (none inside
the pair when the pile document was deleted) and the removal records. -/
def removeItemsFromPile (globalDefault : Bool) (p : Pile) (reqs : List (Nat × Int)) :
    Option (Option Pile × List RemovedRec) :=
  match removeItems p.inv reqs with
  | none => none
  | some (inv2, recs) =>
    let p2 : Pile := { p with inv := inv2 }
    if checkItemPileShouldBeDeleted globalDefault p2 then some (none, recs)
    else some (some p2, recs)

/- ------------------------------------------------------------------ -/
/- Attribute quantity validation (API.addAttributes/removeAttributes). -/
/- ------------------------------------------------------------------ -/

/-- A JavaScript value supplied as an attribute quantity: a number, or a
value of any other type together with the result of coercing it in the
comparison quantity > 0 (for example a non-numeric string coerces to
NaN and compares false). -/
inductive JSVal
  | num (n : Int)
  | other (coercesGtZero : Bool)
deriving DecidableEq, Repr

/-- lib.is_real_number: typeof quantity is number (and finite). -/
def isRealNumber : JSVal → Bool
  | JSVal.num _ => true
  | JSVal.other _ => false

/-- The JavaScript comparison quantity > 0, with its implicit coercion
for non-number values. -/
def jsGtZero : JSVal → Bool
  | JSVal.num n => decide (0 < n)
  | JSVal.other c => c

/-- The quantity guard of API.addAttributes as written (api.js line
1285): it throws exactly when !lib.is_real_number(quantity) &&
quantity > 0. -/
def addAttributesQuantityThrows (q : JSVal) : Bool :=
  !isRealNumber q && jsGtZero q

/-- The quantity guard of API.removeAttributes as written (api.js line
1378): the same condition as in addAttributes. -/
def removeAttributesQuantityThrows (q : JSVal) : Bool :=
  !isRealNumber q && jsGtZero q

/-- The validation the claim and the error message in the source
describe: a quantity is acceptable only when it is a number greater
than zero. -/
def quantityValidPerSpec (q : JSVal) : Bool :=
  isRealNumber q && jsGtZero q

/- ------------------------------------------------------------------ -/
/- Helper lemmas about the document-store primitives.                  -/
/- ------------------------------------------------------------------ -/

theorem findItem_applyUpdate_self (inv : Inventory) (i : Nat) (v : Int) :
    findItem (applyUpdate inv (i, v)) i =
      (findItem inv i).map (fun it => { it with quantity := v }) := by
  induction inv with
  | nil => rfl
  | cons hd tl ih =>
    simp only [applyUpdate, List.map_cons, findItem] at ih ⊢
    cases h : hd.id == i
    · rw [if_neg (by simp),
        List.find?_cons_of_neg _ (by simpa using h),
        List.find?_cons_of_neg _ (by simpa using h)]
      exact ih
    · rw [if_pos rfl,
        @List.find?_cons_of_pos Item (fun it => it.id == i) ⟨hd.id, hd.name, hd.itype, v⟩ _ h,
        @List.find?_cons_of_pos Item (fun it => it.id == i) hd _ h]
      rfl

theorem findItem_filter_dels (inv : Inventory) (dels : List Nat) (i : Nat)
    (hmem : i ∈ dels) :
    findItem (inv.filter (fun it => !(dels.contains it.id))) i = none := by
  rw [findItem, List.find?_eq_none]
  intro it hit hbeq
  have h2 := (List.mem_filter.mp hit).2
  have hid : it.id = i := by simpa using hbeq
  rw [hid] at h2
  simp only [Bool.not_eq_true'] at h2
  exact (by simpa using h2 : i ∉ dels) hmem

theorem filter_contains_nil (inv : Inventory) :
    (inv.filter (fun it => !(List.contains [] it.id))) = inv := by
  simp

theorem updApply_id (ups : List (Nat × Int)) (it : Item) :
    (updApply ups it).id = it.id := by
  unfold updApply
  cases ups.find? (fun u => u.1 == it.id) <;> rfl

theorem find?_key_eq_none {β : Type} (l : List (Nat × β)) (k : Nat)
    (h : ∀ u ∈ l, u.1 ≠ k) : l.find? (fun u => u.1 == k) = none := by
  rw [List.find?_eq_none]
  intro u hu
  simpa using h u hu

theorem find?_eq_some_of_unique {α : Type} (l : List α) (p : α → Bool) (x : α)
    (hx : x ∈ l) (hpx : p x = true) (huniq : ∀ y ∈ l, p y = true → y = x) :
    l.find? p = some x := by
  induction l with
  | nil => cases hx
  | cons a t ih =>
    by_cases ha : p a = true
    · rw [List.find?_cons_of_pos _ ha, huniq a (List.mem_cons_self a t) ha]
    · rw [List.find?_cons_of_neg _ ha]
      rcases List.mem_cons.mp hx with rfl | hx2
      · exact absurd hpx ha
      · exact ih hx2 (fun y hy => huniq y (List.mem_cons_of_mem _ hy))

theorem find?_key_eq_of_nodup {β : Type} (l : List (Nat × β))
    (hnd : (l.map Prod.fst).Nodup) (u : Nat × β) (hu : u ∈ l) :
    l.find? (fun v => v.1 == u.1) = some u := by
  apply find?_eq_some_of_unique l _ u hu (by simp)
  intro v hv hbeq
  have hk : v.1 = u.1 := by simpa using hbeq
  exact List.inj_on_of_nodup_map hnd hv hu hk

theorem findItem_eq_self (inv : Inventory) (hnd : (inv.map Item.id).Nodup)
    (it : Item) (hit : it ∈ inv) : findItem inv it.id = some it := by
  apply find?_eq_some_of_unique inv _ it hit (by simp)
  intro y hy hbeq
  have hk : y.id = it.id := by simpa using hbeq
  exact List.inj_on_of_nodup_map hnd hy hit hk

theorem findItem_eq_none (inv : Inventory) (k : Nat)
    (h : ∀ it ∈ inv, it.id ≠ k) : findItem inv k = none := by
  rw [findItem, List.find?_eq_none]
  intro it hit
  simpa using h it hit

theorem findItem_append (l1 l2 : Inventory) (k : Nat) :
    findItem (l1 ++ l2) k =
      match findItem l1 k with
      | some x => some x
      | none => findItem l2 k := by
  induction l1 with
  | nil => rfl
  | cons a t ih =>
    unfold findItem at ih ⊢
    cases ha : a.id == k
    · rw [List.cons_append,
        @List.find?_cons_of_neg Item (fun it => it.id == k) a (t ++ l2) (by simp [ha]),
        @List.find?_cons_of_neg Item (fun it => it.id == k) a t (by simp [ha])]
      exact ih
    · rw [List.cons_append,
        @List.find?_cons_of_pos Item (fun it => it.id == k) a (t ++ l2) ha,
        @List.find?_cons_of_pos Item (fun it => it.id == k) a t ha]

theorem findItem_map_id_preserved (g : Item → Item) (hg : ∀ it, (g it).id = it.id)
    (inv : Inventory) (k : Nat) :
    findItem (inv.map g) k = (findItem inv k).map g := by
  induction inv with
  | nil => rfl
  | cons a t ih =>
    unfold findItem at ih ⊢
    cases ha : a.id == k
    · rw [List.map_cons,
        @List.find?_cons_of_neg Item (fun it => it.id == k) (g a) (t.map g)
          (by show ¬ ((g a).id == k) = true; rw [hg a]; simp [ha]),
        @List.find?_cons_of_neg Item (fun it => it.id == k) a t (by simp [ha])]
      exact ih
    · rw [List.map_cons,
        @List.find?_cons_of_pos Item (fun it => it.id == k) (g a) (t.map g)
          (by show ((g a).id == k) = true; rw [hg a]; exact ha),
        @List.find?_cons_of_pos Item (fun it => it.id == k) a t ha]
      rfl

theorem updApply_miss (ups : List (Nat × Int)) (it : Item)
    (h : ∀ v ∈ ups, v.1 ≠ it.id) : updApply ups it = it := by
  unfold updApply
  rw [find?_key_eq_none ups it.id h]

theorem updApply_cons_hit (u : Nat × Int) (rest : List (Nat × Int)) (it : Item)
    (hk : it.id = u.1) :
    updApply (u :: rest) it = { it with quantity := u.2 } := by
  unfold updApply
  rw [@List.find?_cons_of_pos (Nat × Int) (fun v => v.1 == it.id) u rest
    (by simpa using hk.symm)]

theorem updApply_cons_miss (u : Nat × Int) (rest : List (Nat × Int)) (it : Item)
    (hk : it.id ≠ u.1) :
    updApply (u :: rest) it = updApply rest it := by
  unfold updApply
  rw [@List.find?_cons_of_neg (Nat × Int) (fun v => v.1 == it.id) u rest
    (by simpa using fun he => hk he.symm)]

theorem foldl_applyUpdate_eq_map (ups : List (Nat × Int)) (inv : Inventory)
    (hnd : (ups.map Prod.fst).Nodup) :
    ups.foldl applyUpdate inv = inv.map (updApply ups) := by
  induction ups generalizing inv with
  | nil =>
    rw [List.foldl_nil]
    have h : ∀ it ∈ inv, it = updApply [] it := fun it _ => rfl
    simpa using List.map_congr_left h
  | cons u rest ih =>
    have hnd1 : (u.1 :: rest.map Prod.fst).Nodup := by simpa using hnd
    have hnd2 := List.nodup_cons.mp hnd1
    rw [List.foldl_cons, ih _ hnd2.2, applyUpdate, List.map_map]
    apply List.map_congr_left
    intro it _
    show updApply rest (if (it.id == u.1) = true then { it with quantity := u.2 } else it) =
      updApply (u :: rest) it
    cases h : it.id == u.1
    · have hk : it.id ≠ u.1 := by simpa using h
      rw [if_neg (by simp), updApply_cons_miss u rest it hk]
    · have hk : it.id = u.1 := by simpa using h
      rw [if_pos rfl, updApply_cons_hit u rest it hk]
      apply updApply_miss
      intro v hv he
      have he2 : v.1 = it.id := he
      exact hnd2.1 ((he2.trans hk) ▸ List.mem_map_of_mem Prod.fst hv)

theorem filterMap_eq_self_of {α : Type} (l : List α) (f : α → Option α)
    (h : ∀ a ∈ l, f a = some a) : l.filterMap f = l := by
  induction l with
  | nil => rfl
  | cons a t ih =>
    simp only [List.filterMap_cons, h a (List.mem_cons_self a t)]
    rw [ih (fun b hb => h b (List.mem_cons_of_mem _ hb))]

theorem filterMap_eq_nil_of {α β : Type} (l : List α) (f : α → Option β)
    (h : ∀ a ∈ l, f a = none) : l.filterMap f = [] := by
  induction l with
  | nil => rfl
  | cons a t ih =>
    simp only [List.filterMap_cons, h a (List.mem_cons_self a t)]
    exact ih (fun b hb => h b (List.mem_cons_of_mem _ hb))

theorem map_filter_eq_filterMap {α β : Type} (l : List α) (g : α → β) (q : β → Bool) :
    (l.map g).filter q = l.filterMap (fun a => if q (g a) then some (g a) else none) := by
  induction l with
  | nil => rfl
  | cons a t ih =>
    rw [List.map_cons, List.filter_cons]
    by_cases h : q (g a) = true
    · simp [List.filterMap_cons, h, ih]
    · simp [List.filterMap_cons, h, ih]

theorem filterMap_guard_sublist {α β : Type} (l : List α) (f : α → Option β) (g : α → β)
    (hf : ∀ a ∈ l, f a = none ∨ f a = some (g a)) :
    (l.filterMap f).Sublist (l.map g) := by
  induction l with
  | nil => simp
  | cons a t ih =>
    have iht := ih (fun b hb => hf b (List.mem_cons_of_mem _ hb))
    rcases hf a (List.mem_cons_self a t) with h | h
    · simp only [List.filterMap_cons, h, List.map_cons]
      exact iht.cons (g a)
    · simp only [List.filterMap_cons, h, List.map_cons]
      exact iht.cons₂ (g a)

theorem nodup_filterMap_keys {α : Type} (l : List α) (f : α → Option (Nat × Int))
    (key : α → Nat)
    (hnd : (l.map key).Nodup)
    (hf : ∀ a ∈ l, f a = none ∨ ∃ v, f a = some (key a, v)) :
    ((l.filterMap f).map Prod.fst).Nodup := by
  have h1 : ((l.filterMap f).map Prod.fst) =
      l.filterMap (fun a => (f a).map Prod.fst) := List.map_filterMap _ _ _
  rw [h1]
  have h2 : (l.filterMap (fun a => (f a).map Prod.fst)).Sublist (l.map key) := by
    apply filterMap_guard_sublist
    intro a ha
    rcases hf a ha with h | ⟨v, h⟩
    · exact Or.inl (by rw [h]; rfl)
    · exact Or.inr (by rw [h]; rfl)
  exact h2.nodup hnd

/- ------------------------------------------------------------------ -/
/- Characterization of removeItems and addItems.                       -/
/- ------------------------------------------------------------------ -/

theorem findItem_eq_reqLine (inv : Inventory) (p : Nat × Int)
    (h : (findItem inv p.1).isSome) : findItem inv p.1 = some (reqLine inv p) := by
  unfold reqLine
  cases hf : findItem inv p.1
  · rw [hf] at h; exact absurd h (by simp)
  · rfl

theorem reqLine_id (inv : Inventory) (p : Nat × Int)
    (h : (findItem inv p.1).isSome) : (reqLine inv p).id = p.1 := by
  have h1 := findItem_eq_reqLine inv p h
  have h2 := List.find?_some h1
  simpa using h2

theorem reqLine_mem (inv : Inventory) (p : Nat × Int)
    (h : (findItem inv p.1).isSome) : reqLine inv p ∈ inv :=
  List.mem_of_find?_eq_some (findItem_eq_reqLine inv p h)

theorem reqKeeps_iff (inv : Inventory) (p : Nat × Int) :
    reqKeeps inv p = true ↔ 1 ≤ max 0 ((reqLine inv p).quantity - p.2) := by
  unfold reqKeeps
  exact decide_eq_true_iff

theorem remRec_eq (inv : Inventory) (p : Nat × Int)
    (h : (findItem inv p.1).isSome) :
    remRec inv p =
      if reqKeeps inv p
      then ⟨{ reqLine inv p with quantity := p.2 }, p.2, false⟩
      else ⟨reqLine inv p, (reqLine inv p).quantity, true⟩ := by
  unfold remRec
  rw [findItem_eq_reqLine inv p h]
  show (if 1 ≤ max 0 ((reqLine inv p).quantity - p.2)
      then (⟨{ reqLine inv p with quantity := p.2 }, p.2, false⟩ : RemovedRec)
      else ⟨reqLine inv p, (reqLine inv p).quantity, true⟩) = _
  by_cases hk : reqKeeps inv p = true
  · rw [if_pos ((reqKeeps_iff inv p).mp hk), if_pos hk]
  · rw [if_neg (fun hx => hk ((reqKeeps_iff inv p).mpr hx)), if_neg hk]

theorem remRec_item (inv : Inventory) (p : Nat × Int)
    (h : (findItem inv p.1).isSome) :
    (remRec inv p).item = { reqLine inv p with quantity := reqMoved inv p } := by
  rw [remRec_eq inv p h]
  unfold reqMoved
  by_cases hk : reqKeeps inv p = true
  · rw [if_pos hk, if_pos hk]
  · rw [if_neg hk, if_neg hk]

theorem remRec_quantity (inv : Inventory) (p : Nat × Int)
    (h : (findItem inv p.1).isSome) :
    (remRec inv p).quantity = reqMoved inv p := by
  rw [remRec_eq inv p h]
  unfold reqMoved
  by_cases hk : reqKeeps inv p = true
  · rw [if_pos hk, if_pos hk]
  · rw [if_neg hk, if_neg hk]

theorem remUp_eq (inv : Inventory) (p : Nat × Int)
    (h : (findItem inv p.1).isSome) :
    remUp inv p =
      if reqKeeps inv p
      then some (p.1, max 0 ((reqLine inv p).quantity - p.2))
      else none := by
  unfold remUp
  rw [findItem_eq_reqLine inv p h]
  show (if 1 ≤ max 0 ((reqLine inv p).quantity - p.2)
      then some (p.1, max 0 ((reqLine inv p).quantity - p.2))
      else none) = _
  by_cases hk : reqKeeps inv p = true
  · rw [if_pos ((reqKeeps_iff inv p).mp hk), if_pos hk]
  · rw [if_neg (fun hx => hk ((reqKeeps_iff inv p).mpr hx)), if_neg hk]

theorem remDel_eq (inv : Inventory) (p : Nat × Int)
    (h : (findItem inv p.1).isSome) :
    remDel inv p = if reqKeeps inv p then none else some p.1 := by
  unfold remDel
  rw [findItem_eq_reqLine inv p h]
  show (if 1 ≤ max 0 ((reqLine inv p).quantity - p.2) then none else some p.1) = _
  by_cases hk : reqKeeps inv p = true
  · rw [if_pos ((reqKeeps_iff inv p).mp hk), if_pos hk]
  · rw [if_neg (fun hx => hk ((reqKeeps_iff inv p).mpr hx)), if_neg hk]

theorem remUp_key (inv : Inventory) (p : Nat × Int) (u : Nat × Int)
    (h : remUp inv p = some u) : u.1 = p.1 := by
  unfold remUp at h
  split at h
  · exact Option.noConfusion h
  · split at h
    · injection h with h1; rw [← h1]
    · exact Option.noConfusion h

theorem remDel_key (inv : Inventory) (p : Nat × Int) (d : Nat)
    (h : remDel inv p = some d) : d = p.1 := by
  unfold remDel at h
  split at h
  · exact Option.noConfusion h
  · split at h
    · exact Option.noConfusion h
    · injection h with h1; rw [← h1]

theorem removeLoop_eq (inv : Inventory) (reqs : List (Nat × Int))
    (hall : ∀ p ∈ reqs, (findItem inv p.1).isSome) :
    removeLoop inv reqs =
      some (reqs.map (remRec inv), reqs.filterMap (remUp inv),
            reqs.filterMap (remDel inv)) := by
  induction reqs with
  | nil => rfl
  | cons p rest ih =>
    obtain ⟨i, r⟩ := p
    have hp := hall (i, r) (List.mem_cons_self _ _)
    obtain ⟨it, hit⟩ := Option.isSome_iff_exists.mp hp
    have hit2 : findItem inv i = some it := hit
    have ihh := ih (fun q hq => hall q (List.mem_cons_of_mem _ hq))
    by_cases hkeep : (1:Int) ≤ max 0 (it.quantity - r)
    · simp only [removeLoop, hit2, ihh, List.map_cons, List.filterMap_cons,
        remRec, remUp, remDel, if_pos hkeep]
    · simp only [removeLoop, hit2, ihh, List.map_cons, List.filterMap_cons,
        remRec, remUp, remDel, if_neg hkeep]

theorem removeItems_eq (inv : Inventory) (reqs : List (Nat × Int))
    (hinv : (inv.map Item.id).Nodup)
    (hreq : (reqs.map Prod.fst).Nodup)
    (hall : ∀ p ∈ reqs, (findItem inv p.1).isSome) :
    removeItems inv reqs =
      some (inv.filterMap (remLine reqs), reqs.map (remRec inv)) := by
  unfold removeItems
  rw [removeLoop_eq inv reqs hall]
  have hndups : ((reqs.filterMap (remUp inv)).map Prod.fst).Nodup := by
    apply nodup_filterMap_keys reqs _ Prod.fst hreq
    intro p hp
    rw [remUp_eq inv p (hall p hp)]
    by_cases hk : reqKeeps inv p = true
    · exact Or.inr ⟨_, by rw [if_pos hk]⟩
    · exact Or.inl (by rw [if_neg hk])
  have hpoint : ∀ a ∈ inv,
      (if (!(List.contains (reqs.filterMap (remDel inv))
            (updApply (reqs.filterMap (remUp inv)) a).id)) = true
       then some (updApply (reqs.filterMap (remUp inv)) a) else none) =
      remLine reqs a := by
    intro a ha
    rw [show (!(List.contains (reqs.filterMap (remDel inv))
        (updApply (reqs.filterMap (remUp inv)) a).id)) =
      (!(List.contains (reqs.filterMap (remDel inv)) a.id)) from by rw [updApply_id]]
    unfold remLine
    cases hF : reqs.find? (fun p => p.1 == a.id) with
    | none =>
      have hnone := List.find?_eq_none.mp hF
      have hup : updApply (reqs.filterMap (remUp inv)) a = a := by
        apply updApply_miss
        intro v hv
        obtain ⟨p, hp, hvp⟩ := List.mem_filterMap.mp hv
        rw [remUp_key inv p v hvp]
        intro he
        exact hnone p hp (by simpa using he)
      have hdel : a.id ∉ (reqs.filterMap (remDel inv)) := by
        intro hmem
        obtain ⟨p, hp, hvp⟩ := List.mem_filterMap.mp hmem
        exact hnone p hp (by simpa using (remDel_key inv p _ hvp).symm)
      rw [hup, if_pos (by simpa using hdel)]
    | some p =>
      have hp : p ∈ reqs := List.mem_of_find?_eq_some hF
      have hpk : p.1 = a.id := by simpa using List.find?_some hF
      have hfind : findItem inv p.1 = some a := by
        rw [hpk]; exact findItem_eq_self inv hinv a ha
      have hsome : (findItem inv p.1).isSome := by rw [hfind]; rfl
      have hline : reqLine inv p = a := by
        have h2 := findItem_eq_reqLine inv p hsome
        rw [hfind] at h2
        exact (Option.some_injective _ h2).symm
      by_cases hk : reqKeeps inv p = true
      · have hk2 : (1:Int) ≤ max 0 (a.quantity - p.2) := by
          have h3 := (reqKeeps_iff inv p).mp hk
          rwa [hline] at h3
        have hupmem : (a.id, max 0 (a.quantity - p.2)) ∈ reqs.filterMap (remUp inv) := by
          apply List.mem_filterMap.mpr
          exact ⟨p, hp, by rw [remUp_eq inv p hsome, if_pos hk, hline, hpk]⟩
        have hup : updApply (reqs.filterMap (remUp inv)) a =
            { a with quantity := max 0 (a.quantity - p.2) } := by
          unfold updApply
          have h4 := find?_key_eq_of_nodup _ hndups _ hupmem
          rw [h4]
        have hdel : a.id ∉ (reqs.filterMap (remDel inv)) := by
          intro hmem
          obtain ⟨q, hq, hvq⟩ := List.mem_filterMap.mp hmem
          have hqk : q.1 = a.id := (remDel_key inv q _ hvq) ▸ rfl
          have hqp : q = p := List.inj_on_of_nodup_map hreq hq hp (hqk.trans hpk.symm)
          rw [hqp, remDel_eq inv p hsome, if_pos hk] at hvq
          exact Option.noConfusion hvq
        rw [hup, if_pos (by simpa using hdel)]
        show _ = if 1 ≤ max 0 (a.quantity - p.2) then
            some { a with quantity := max 0 (a.quantity - p.2) } else none
        rw [if_pos hk2]
      · have hk2 : ¬ ((1:Int) ≤ max 0 (a.quantity - p.2)) := by
          intro hx
          exact hk ((reqKeeps_iff inv p).mpr (by rwa [hline]))
        have hdelmem : a.id ∈ (reqs.filterMap (remDel inv)) := by
          apply List.mem_filterMap.mpr
          exact ⟨p, hp, by rw [remDel_eq inv p hsome, if_neg hk, hpk]⟩
        rw [if_neg (by simpa using hdelmem)]
        show _ = if 1 ≤ max 0 (a.quantity - p.2) then
            some { a with quantity := max 0 (a.quantity - p.2) } else none
        rw [if_neg hk2]
  show some _ = _
  rw [foldl_applyUpdate_eq_map _ _ hndups, map_filter_eq_filterMap,
    List.filterMap_congr hpoint]

theorem addLoop_eq (snapshot : Inventory) (items : List (Item × Int)) :
    addLoop snapshot items =
      (items.filterMap (addRecM snapshot), items.filterMap (addUp snapshot),
       items.filterMap (addCreate snapshot)) := by
  induction items with
  | nil => rfl
  | cons pr rest ih =>
    obtain ⟨itm, q⟩ := pr
    show addLoop snapshot ((itm, q) :: rest) = _
    unfold addLoop
    rw [ih]
    cases hm : getSimilarItem snapshot itm.id itm.name itm.itype with
    | some found =>
      simp only [List.filterMap_cons, addRecM, addUp, addCreate, addMatch, hm]
      rfl
    | none =>
      simp only [List.filterMap_cons, addRecM, addUp, addCreate, addMatch, hm]
      rfl

theorem addItems_eq (snapshot : Inventory) (items : List (Item × Int))
    (hnd : ((items.filterMap (addUp snapshot)).map Prod.fst).Nodup) :
    addItems snapshot items =
      ((snapshot ++ items.filterMap (addCreate snapshot)).map
         (updApply (items.filterMap (addUp snapshot))),
       items.filterMap (addRecM snapshot) ++
         (items.filterMap (addCreate snapshot)).map (fun it => ⟨it, it.quantity⟩)) := by
  unfold addItems
  rw [addLoop_eq]
  show (_, _) = _
  rw [foldl_applyUpdate_eq_map _ _ hnd]

/- ------------------------------------------------------------------ -/
/- The forward leg of a transfer, request by request.                  -/
/- ------------------------------------------------------------------ -/

theorem getSimilarItem_eq_pair (Binv : Inventory) (i nm t : Nat)
    (hdisj : ∀ b ∈ Binv, b.id ≠ i) :
    getSimilarItem Binv i nm t =
      Binv.find? (fun b => b.name == nm && b.itype == t) := by
  unfold getSimilarItem
  induction Binv with
  | nil => rfl
  | cons b rest ih =>
    have hb : (b.id == i) = false := by
      simpa using hdisj b (List.mem_cons_self b rest)
    have iht := ih (fun x hx => hdisj x (List.mem_cons_of_mem _ hx))
    cases hp : (b.name == nm && b.itype == t)
    · rw [@List.find?_cons_of_neg Item
          (fun it => it.id == i || (it.name == nm && it.itype == t)) b rest
          (by simp [hb, hp]),
        @List.find?_cons_of_neg Item (fun x => x.name == nm && x.itype == t) b rest
          (by simp [hp])]
      exact iht
    · rw [@List.find?_cons_of_pos Item
          (fun it => it.id == i || (it.name == nm && it.itype == t)) b rest
          (by simp [hb, hp]),
        @List.find?_cons_of_pos Item (fun x => x.name == nm && x.itype == t) b rest hp]

theorem remRec_pair_eq (inv : Inventory) (reqs : List (Nat × Int))
    (hall : ∀ p ∈ reqs, (findItem inv p.1).isSome) :
    (reqs.map (remRec inv)).map (fun rc => (rc.item, rc.quantity)) =
      reqs.map (fun p =>
        (({ reqLine inv p with quantity := reqMoved inv p } : Item), reqMoved inv p)) := by
  rw [List.map_map]
  apply List.map_congr_left
  intro p hp
  show ((remRec inv p).item, (remRec inv p).quantity) = _
  rw [remRec_item inv p (hall p hp), remRec_quantity inv p (hall p hp)]

theorem addMatch_transfer (A B : Inventory) (p : Nat × Int)
    (hdisj : ∀ b ∈ B, b.id ≠ (reqLine A p).id) :
    addMatch B (({ reqLine A p with quantity := reqMoved A p } : Item), reqMoved A p) =
      fwdMatch A B p := by
  show getSimilarItem B (reqLine A p).id (reqLine A p).name (reqLine A p).itype = _
  rw [getSimilarItem_eq_pair B _ _ _ hdisj]
  rfl

theorem addUp_transfer (A B : Inventory) (p : Nat × Int)
    (hdisj : ∀ b ∈ B, b.id ≠ (reqLine A p).id) :
    addUp B (({ reqLine A p with quantity := reqMoved A p } : Item), reqMoved A p) =
      fwdUp A B p := by
  unfold addUp fwdUp
  rw [addMatch_transfer A B p hdisj]

theorem addCreate_transfer (A B : Inventory) (p : Nat × Int)
    (hdisj : ∀ b ∈ B, b.id ≠ (reqLine A p).id) :
    addCreate B (({ reqLine A p with quantity := reqMoved A p } : Item), reqMoved A p) =
      fwdCreate A B p := by
  unfold addCreate fwdCreate
  rw [addMatch_transfer A B p hdisj]

theorem addRecM_transfer (A B : Inventory) (p : Nat × Int)
    (hdisj : ∀ b ∈ B, b.id ≠ (reqLine A p).id) :
    addRecM B (({ reqLine A p with quantity := reqMoved A p } : Item), reqMoved A p) =
      fwdRec A B p := by
  unfold addRecM fwdRec
  rw [addMatch_transfer A B p hdisj]

theorem fwdMatch_mem (A B : Inventory) (p : Nat × Int) (m : Item)
    (h : fwdMatch A B p = some m) : m ∈ B :=
  List.mem_of_find?_eq_some h

theorem fwdMatch_pair (A B : Inventory) (p : Nat × Int) (m : Item)
    (h : fwdMatch A B p = some m) :
    m.name = (reqLine A p).name ∧ m.itype = (reqLine A p).itype := by
  have h2 := List.find?_some h
  simpa using h2

theorem fwdMatch_inj (A B : Inventory) (reqs : List (Nat × Int))
    (hBnd : (B.map Item.id).Nodup)
    (hpairs : (A.map pairOf).Nodup)
    (hreqnd : (reqs.map Prod.fst).Nodup)
    (hall : ∀ p ∈ reqs, (findItem A p.1).isSome) :
    ∀ p ∈ reqs, ∀ q ∈ reqs, ∀ m m2 : Item, fwdMatch A B p = some m →
      fwdMatch A B q = some m2 → m.id = m2.id → p = q := by
  intro p hp q hq m m2 hm hm2 hid
  have hmm : m = m2 :=
    List.inj_on_of_nodup_map hBnd (fwdMatch_mem _ _ _ _ hm) (fwdMatch_mem _ _ _ _ hm2) hid
  subst hmm
  have h1 := fwdMatch_pair A B p m hm
  have h2 := fwdMatch_pair A B q m hm2
  have hpair : pairOf (reqLine A p) = pairOf (reqLine A q) := by
    unfold pairOf
    rw [← h1.1, ← h1.2, ← h2.1, ← h2.2]
  have hlines : reqLine A p = reqLine A q :=
    List.inj_on_of_nodup_map hpairs (reqLine_mem A p (hall p hp))
      (reqLine_mem A q (hall q hq)) hpair
  have hkeys : p.1 = q.1 := by
    rw [← reqLine_id A p (hall p hp), ← reqLine_id A q (hall q hq), hlines]
  exact List.inj_on_of_nodup_map hreqnd hp hq hkeys

theorem nodup_filterMap_mem {α β : Type} (l : List α) (f : α → Option β)
    (hl : l.Nodup)
    (hinj : ∀ a ∈ l, ∀ a2 ∈ l, ∀ b, f a = some b → f a2 = some b → a = a2) :
    (l.filterMap f).Nodup := by
  induction l with
  | nil => exact List.nodup_nil
  | cons a t ih =>
    obtain ⟨ha, ht⟩ := List.nodup_cons.mp hl
    have iht := ih ht (fun x hx y hy b hb hb2 =>
      hinj x (List.mem_cons_of_mem _ hx) y (List.mem_cons_of_mem _ hy) b hb hb2)
    cases hfa : f a with
    | none => simpa [List.filterMap_cons, hfa] using iht
    | some b =>
      simp only [List.filterMap_cons, hfa]
      rw [List.nodup_cons]
      refine ⟨?_, iht⟩
      intro hbmem
      obtain ⟨x, hx, hfx⟩ := List.mem_filterMap.mp hbmem
      have hax : a = x :=
        hinj a (List.mem_cons_self a t) x (List.mem_cons_of_mem _ hx) b hfa hfx
      exact ha (hax ▸ hx)

/- ------------------------------------------------------------------ -/
/- Keys and shapes of the forward-leg output lists.                    -/
/- ------------------------------------------------------------------ -/

theorem fwdUps_keys (A B : Inventory) (reqs : List (Nat × Int)) :
    (fwdUps A B reqs).map Prod.fst = matchedKeys A B reqs := by
  unfold fwdUps matchedKeys
  rw [List.map_filterMap]
  apply List.filterMap_congr
  intro p hp
  unfold fwdUp
  cases fwdMatch A B p <;> rfl

theorem retReqM_keys (A B : Inventory) (reqs : List (Nat × Int)) :
    (reqs.filterMap (retReqM A B)).map Prod.fst = matchedKeys A B reqs := by
  unfold matchedKeys
  rw [List.map_filterMap]
  apply List.filterMap_congr
  intro p hp
  unfold retReqM
  cases fwdMatch A B p <;> rfl

theorem fwdCreates_ids (A B : Inventory) (reqs : List (Nat × Int)) :
    (fwdCreates A B reqs).map Item.id =
      reqs.filterMap (fun p =>
        match fwdMatch A B p with
        | some _ => none
        | none => some (reqLine A p).id) := by
  unfold fwdCreates
  rw [List.map_filterMap]
  apply List.filterMap_congr
  intro p hp
  unfold fwdCreate
  cases fwdMatch A B p <;> rfl

theorem retReqC_keys (A B : Inventory) (reqs : List (Nat × Int)) :
    (reqs.filterMap (retReqC A B)).map Prod.fst =
      reqs.filterMap (fun p =>
        match fwdMatch A B p with
        | some _ => none
        | none => some (reqLine A p).id) := by
  rw [List.map_filterMap]
  apply List.filterMap_congr
  intro p hp
  unfold retReqC
  cases fwdMatch A B p <;> rfl

theorem matchedKeys_nodup (A B : Inventory) (reqs : List (Nat × Int))
    (hBnd : (B.map Item.id).Nodup)
    (hpairs : (A.map pairOf).Nodup)
    (hreqnd : (reqs.map Prod.fst).Nodup)
    (hall : ∀ p ∈ reqs, (findItem A p.1).isSome) :
    (matchedKeys A B reqs).Nodup := by
  unfold matchedKeys
  apply nodup_filterMap_mem reqs _ (List.Nodup.of_map _ hreqnd)
  intro p hp q hq k h1 h2
  obtain ⟨m, hm, hk⟩ := Option.map_eq_some'.mp h1
  obtain ⟨m2, hm2, hk2⟩ := Option.map_eq_some'.mp h2
  exact fwdMatch_inj A B reqs hBnd hpairs hreqnd hall p hp q hq m m2 hm hm2
    (hk.trans hk2.symm)

theorem matchedKeys_mem (A B : Inventory) (reqs : List (Nat × Int)) (k : Nat)
    (h : k ∈ matchedKeys A B reqs) : ∃ b ∈ B, b.id = k := by
  unfold matchedKeys at h
  obtain ⟨p, hp, hpk⟩ := List.mem_filterMap.mp h
  obtain ⟨m, hm, hk⟩ := Option.map_eq_some'.mp hpk
  exact ⟨m, fwdMatch_mem A B p m hm, hk⟩

theorem createdKeys_nodup (A : Inventory) (B : Inventory) (reqs : List (Nat × Int))
    (hreqnd : (reqs.map Prod.fst).Nodup)
    (hall : ∀ p ∈ reqs, (findItem A p.1).isSome) :
    (reqs.filterMap (fun p =>
        match fwdMatch A B p with
        | some _ => none
        | none => some (reqLine A p).id)).Nodup := by
  apply nodup_filterMap_mem reqs _ (List.Nodup.of_map _ hreqnd)
  intro p hp q hq k h1 h2
  have hk1 : (reqLine A p).id = k := by
    cases hm : fwdMatch A B p <;> rw [hm] at h1
    · injection h1
    · exact Option.noConfusion h1
  have hk2 : (reqLine A q).id = k := by
    cases hm : fwdMatch A B q <;> rw [hm] at h2
    · injection h2
    · exact Option.noConfusion h2
  have hkeys : p.1 = q.1 := by
    rw [← reqLine_id A p (hall p hp), ← reqLine_id A q (hall q hq), hk1, hk2]
  exact List.inj_on_of_nodup_map hreqnd hp hq hkeys

theorem createdKeys_mem (A B : Inventory) (reqs : List (Nat × Int)) (k : Nat)
    (h : k ∈ reqs.filterMap (fun p =>
        match fwdMatch A B p with
        | some _ => none
        | none => some (reqLine A p).id))
    (hall : ∀ p ∈ reqs, (findItem A p.1).isSome) :
    ∃ a ∈ A, a.id = k := by
  obtain ⟨p, hp, hpk⟩ := List.mem_filterMap.mp h
  have hk1 : (reqLine A p).id = k := by
    cases hm : fwdMatch A B p <;> rw [hm] at hpk
    · injection hpk
    · exact Option.noConfusion hpk
  exact ⟨reqLine A p, reqLine_mem A p (hall p hp), hk1⟩

theorem mem_fwdCreates (A B : Inventory) (reqs : List (Nat × Int)) (c : Item)
    (h : c ∈ fwdCreates A B reqs) :
    ∃ p ∈ reqs, fwdMatch A B p = none ∧
      c = { reqLine A p with quantity := reqMoved A p } := by
  obtain ⟨p, hp, hpc⟩ := List.mem_filterMap.mp h
  unfold fwdCreate at hpc
  cases hm : fwdMatch A B p <;> rw [hm] at hpc
  · exact ⟨p, hp, hm, by injection hpc with h1; rw [h1]⟩
  · exact Option.noConfusion hpc

/- ------------------------------------------------------------------ -/
/- The target inventory after the forward leg.                         -/
/- ------------------------------------------------------------------ -/

theorem B_map_updApply_ids (A B : Inventory) (reqs : List (Nat × Int)) :
    (B.map (updApply (fwdUps A B reqs))).map Item.id = B.map Item.id := by
  rw [List.map_map]
  exact List.map_congr_left (fun b _ => updApply_id _ b)

theorem targetAfter_ids_nodup (A B : Inventory) (reqs : List (Nat × Int))
    (hBnd : (B.map Item.id).Nodup)
    (hdisj : ∀ a ∈ A, ∀ b ∈ B, a.id ≠ b.id)
    (hreqnd : (reqs.map Prod.fst).Nodup)
    (hall : ∀ p ∈ reqs, (findItem A p.1).isSome) :
    ((targetAfter A B reqs).map Item.id).Nodup := by
  unfold targetAfter
  rw [List.map_append, List.nodup_append]
  refine ⟨?_, ?_, ?_⟩
  · rw [B_map_updApply_ids]; exact hBnd
  · rw [fwdCreates_ids]; exact createdKeys_nodup A B reqs hreqnd hall
  · intro k hk1 hk2
    rw [B_map_updApply_ids] at hk1
    rw [fwdCreates_ids] at hk2
    obtain ⟨a, ha, hak⟩ := createdKeys_mem A B reqs k hk2 hall
    obtain ⟨b, hb, hbk⟩ := List.mem_map.mp hk1
    exact hdisj a ha b hb (hak.trans hbk.symm)

theorem findItem_targetAfter_matched (A B : Inventory) (reqs : List (Nat × Int))
    (p : Nat × Int) (m : Item)
    (hBnd : (B.map Item.id).Nodup)
    (hpairs : (A.map pairOf).Nodup)
    (hreqnd : (reqs.map Prod.fst).Nodup)
    (hall : ∀ q ∈ reqs, (findItem A q.1).isSome)
    (hp : p ∈ reqs) (hm : fwdMatch A B p = some m) :
    findItem (targetAfter A B reqs) m.id =
      some { m with quantity := m.quantity + reqMoved A p } := by
  unfold targetAfter
  rw [findItem_append]
  have h1 : findItem (B.map (updApply (fwdUps A B reqs))) m.id =
      some (updApply (fwdUps A B reqs) m) := by
    rw [findItem_map_id_preserved _ (fun it => updApply_id _ it),
      findItem_eq_self B hBnd m (fwdMatch_mem A B p m hm)]
    rfl
  rw [h1]
  show some (updApply (fwdUps A B reqs) m) = _
  congr 1
  have hmem : (m.id, m.quantity + reqMoved A p) ∈ fwdUps A B reqs := by
    unfold fwdUps
    exact List.mem_filterMap.mpr ⟨p, hp, by unfold fwdUp; rw [hm]; rfl⟩
  have hndk : ((fwdUps A B reqs).map Prod.fst).Nodup := by
    rw [fwdUps_keys]; exact matchedKeys_nodup A B reqs hBnd hpairs hreqnd hall
  have h2 : (fwdUps A B reqs).find? (fun u => u.1 == m.id) =
      some (m.id, m.quantity + reqMoved A p) :=
    find?_key_eq_of_nodup _ hndk _ hmem
  unfold updApply
  rw [h2]

theorem findItem_targetAfter_created (A B : Inventory) (reqs : List (Nat × Int))
    (p : Nat × Int)
    (hdisjp : ∀ b ∈ B, b.id ≠ (reqLine A p).id)
    (hreqnd : (reqs.map Prod.fst).Nodup)
    (hall : ∀ q ∈ reqs, (findItem A q.1).isSome)
    (hp : p ∈ reqs) (hm : fwdMatch A B p = none) :
    findItem (targetAfter A B reqs) (reqLine A p).id =
      some { reqLine A p with quantity := reqMoved A p } := by
  unfold targetAfter
  rw [findItem_append]
  have h1 : findItem (B.map (updApply (fwdUps A B reqs))) (reqLine A p).id = none := by
    rw [findItem_map_id_preserved _ (fun it => updApply_id _ it),
      findItem_eq_none B _ hdisjp]
    rfl
  rw [h1]
  show findItem (fwdCreates A B reqs) (reqLine A p).id = _
  have hcnd : ((fwdCreates A B reqs).map Item.id).Nodup := by
    rw [fwdCreates_ids]; exact createdKeys_nodup A B reqs hreqnd hall
  have hcmem : ({ reqLine A p with quantity := reqMoved A p } : Item) ∈
      fwdCreates A B reqs := by
    unfold fwdCreates
    exact List.mem_filterMap.mpr ⟨p, hp, by unfold fwdCreate; rw [hm]⟩
  exact findItem_eq_self _ hcnd _ hcmem

theorem retReqs_keys_nodup (A B : Inventory) (reqs : List (Nat × Int))
    (hBnd : (B.map Item.id).Nodup)
    (hpairs : (A.map pairOf).Nodup)
    (hreqnd : (reqs.map Prod.fst).Nodup)
    (hall : ∀ p ∈ reqs, (findItem A p.1).isSome)
    (hdisj : ∀ a ∈ A, ∀ b ∈ B, a.id ≠ b.id) :
    ((retReqs A B reqs).map Prod.fst).Nodup := by
  unfold retReqs
  rw [List.map_append, List.nodup_append]
  refine ⟨?_, ?_, ?_⟩
  · rw [retReqM_keys]; exact matchedKeys_nodup A B reqs hBnd hpairs hreqnd hall
  · rw [retReqC_keys]; exact createdKeys_nodup A B reqs hreqnd hall
  · intro k hk1 hk2
    rw [retReqM_keys] at hk1
    rw [retReqC_keys] at hk2
    obtain ⟨b, hb, hbk⟩ := matchedKeys_mem A B reqs k hk1
    obtain ⟨a, ha, hak⟩ := createdKeys_mem A B reqs k hk2 hall
    exact hdisj a ha b hb (hak.trans hbk.symm)

theorem retReqs_all_found (A B : Inventory) (reqs : List (Nat × Int))
    (hBnd : (B.map Item.id).Nodup)
    (hpairs : (A.map pairOf).Nodup)
    (hreqnd : (reqs.map Prod.fst).Nodup)
    (hall : ∀ p ∈ reqs, (findItem A p.1).isSome)
    (hdisj : ∀ a ∈ A, ∀ b ∈ B, a.id ≠ b.id) :
    ∀ e ∈ retReqs A B reqs, (findItem (targetAfter A B reqs) e.1).isSome := by
  intro e he
  rcases List.mem_append.mp he with h | h
  · obtain ⟨p, hp, hpe⟩ := List.mem_filterMap.mp h
    unfold retReqM at hpe
    obtain ⟨m, hm, he2⟩ := Option.map_eq_some'.mp hpe
    rw [← he2]
    rw [findItem_targetAfter_matched A B reqs p m hBnd hpairs hreqnd hall hp hm]
    rfl
  · obtain ⟨p, hp, hpe⟩ := List.mem_filterMap.mp h
    unfold retReqC at hpe
    cases hm : fwdMatch A B p <;> rw [hm] at hpe
    · injection hpe with he2
      rw [← he2]
      have hdisjp : ∀ b ∈ B, b.id ≠ (reqLine A p).id := fun b hb =>
        fun hc => hdisj (reqLine A p) (reqLine_mem A p (hall p hp)) b hb hc.symm
      rw [findItem_targetAfter_created A B reqs p hdisjp hreqnd hall hp hm]
      rfl
    · exact Option.noConfusion hpe

/- ------------------------------------------------------------------ -/
/- The return leg restores the target inventory exactly.               -/
/- ------------------------------------------------------------------ -/

theorem mem_fwdUps_decode (A B : Inventory) (reqs : List (Nat × Int)) (u : Nat × Int)
    (hu : u ∈ fwdUps A B reqs) :
    ∃ p ∈ reqs, ∃ m : Item, fwdMatch A B p = some m ∧
      u = (m.id, m.quantity + reqMoved A p) := by
  obtain ⟨p, hp, hpu⟩ := List.mem_filterMap.mp hu
  unfold fwdUp at hpu
  obtain ⟨m, hm, hu2⟩ := Option.map_eq_some'.mp hpu
  exact ⟨p, hp, m, hm, hu2.symm⟩

theorem return_remove_restores (A B : Inventory) (reqs : List (Nat × Int))
    (hBnd : (B.map Item.id).Nodup)
    (hpairs : (A.map pairOf).Nodup)
    (hreqnd : (reqs.map Prod.fst).Nodup)
    (hall : ∀ p ∈ reqs, (findItem A p.1).isSome)
    (hdisj : ∀ a ∈ A, ∀ b ∈ B, a.id ≠ b.id)
    (hqB : ∀ b ∈ B, 1 ≤ b.quantity) :
    (targetAfter A B reqs).filterMap (remLine (retReqs A B reqs)) = B := by
  have hretnd := retReqs_keys_nodup A B reqs hBnd hpairs hreqnd hall hdisj
  unfold targetAfter
  rw [List.filterMap_append]
  have hB : (B.map (updApply (fwdUps A B reqs))).filterMap
      (remLine (retReqs A B reqs)) = B := by
    rw [List.filterMap_map]
    apply filterMap_eq_self_of
    intro b hb
    show remLine (retReqs A B reqs) (updApply (fwdUps A B reqs) b) = some b
    cases hfind : (fwdUps A B reqs).find? (fun u => u.1 == b.id) with
    | some u =>
      have hu := List.mem_of_find?_eq_some hfind
      obtain ⟨p, hp, m, hm, hu2⟩ := mem_fwdUps_decode A B reqs u hu
      have hukey : u.1 = b.id := by simpa using List.find?_some hfind
      have hmid : m.id = b.id := by rw [hu2] at hukey; exact hukey
      have hmb : m = b :=
        List.inj_on_of_nodup_map hBnd (fwdMatch_mem A B p m hm) hb hmid
      have hup : updApply (fwdUps A B reqs) b =
          { b with quantity := b.quantity + reqMoved A p } := by
        unfold updApply
        rw [hfind, hu2, hmb]
      rw [hup]
      have hmem : ((b.id, reqMoved A p) : Nat × Int) ∈ retReqs A B reqs := by
        unfold retReqs
        apply List.mem_append.mpr
        refine Or.inl (List.mem_filterMap.mpr ⟨p, hp, ?_⟩)
        unfold retReqM
        rw [hm, Option.map_some', hmb]
      have hfret : (retReqs A B reqs).find?
          (fun e => e.1 == ({ b with quantity := b.quantity + reqMoved A p } : Item).id) =
          some (b.id, reqMoved A p) :=
        find?_key_eq_of_nodup _ hretnd _ hmem
      unfold remLine
      rw [hfret]
      show (if 1 ≤ max 0 (b.quantity + reqMoved A p - reqMoved A p)
          then some (⟨b.id, b.name, b.itype,
            max 0 (b.quantity + reqMoved A p - reqMoved A p)⟩ : Item)
          else none) = some b
      rw [show b.quantity + reqMoved A p - reqMoved A p = b.quantity from by ring,
        if_pos (le_max_of_le_right (hqB b hb)),
        max_eq_right (le_trans zero_le_one (hqB b hb))]
    | none =>
      have hup : updApply (fwdUps A B reqs) b = b := by
        unfold updApply
        rw [hfind]
      rw [hup]
      have hnone : (retReqs A B reqs).find? (fun e => e.1 == b.id) = none := by
        apply find?_key_eq_none
        intro e he
        rcases List.mem_append.mp he with h | h
        · obtain ⟨p, hp, hpe⟩ := List.mem_filterMap.mp h
          unfold retReqM at hpe
          obtain ⟨m, hm, he2⟩ := Option.map_eq_some'.mp hpe
          intro hcontra
          have hmid : m.id = b.id := by rw [← he2] at hcontra; exact hcontra
          have hupsmem : ((m.id, m.quantity + reqMoved A p) : Nat × Int) ∈
              fwdUps A B reqs := by
            unfold fwdUps
            exact List.mem_filterMap.mpr ⟨p, hp, by unfold fwdUp; rw [hm]; rfl⟩
          have hnone2 := List.find?_eq_none.mp hfind _ hupsmem
          exact hnone2 (by simpa using hmid)
        · obtain ⟨p, hp, hpe⟩ := List.mem_filterMap.mp h
          unfold retReqC at hpe
          cases hm : fwdMatch A B p <;> rw [hm] at hpe
          · injection hpe with he2
            intro hcontra
            rw [← he2] at hcontra
            exact hdisj (reqLine A p) (reqLine_mem A p (hall p hp)) b hb hcontra
          · exact Option.noConfusion hpe
      unfold remLine
      rw [hnone]
  have hC : (fwdCreates A B reqs).filterMap (remLine (retReqs A B reqs)) = [] := by
    apply filterMap_eq_nil_of
    intro c hc
    obtain ⟨p, hp, hm, hc2⟩ := mem_fwdCreates A B reqs c hc
    subst hc2
    have hmem : (((reqLine A p).id, reqMoved A p) : Nat × Int) ∈ retReqs A B reqs := by
      unfold retReqs
      apply List.mem_append.mpr
      refine Or.inr (List.mem_filterMap.mpr ⟨p, hp, ?_⟩)
      unfold retReqC
      rw [hm]
    have hfret : (retReqs A B reqs).find?
        (fun e => e.1 == ({ reqLine A p with quantity := reqMoved A p } : Item).id) =
        some ((reqLine A p).id, reqMoved A p) :=
      find?_key_eq_of_nodup _ hretnd _ hmem
    unfold remLine
    rw [hfret]
    show (if 1 ≤ max 0 (reqMoved A p - reqMoved A p)
        then some (⟨(reqLine A p).id, (reqLine A p).name, (reqLine A p).itype,
          max 0 (reqMoved A p - reqMoved A p)⟩ : Item)
        else none) = none
    rw [show reqMoved A p - reqMoved A p = (0:Int) from by ring]
    rw [if_neg (by simp)]
  rw [hB, hC, List.append_nil]

theorem return_remove_records (A B : Inventory) (reqs : List (Nat × Int))
    (hBnd : (B.map Item.id).Nodup)
    (hpairs : (A.map pairOf).Nodup)
    (hreqnd : (reqs.map Prod.fst).Nodup)
    (hall : ∀ p ∈ reqs, (findItem A p.1).isSome)
    (hdisj : ∀ a ∈ A, ∀ b ∈ B, a.id ≠ b.id)
    (hqB : ∀ b ∈ B, 1 ≤ b.quantity) :
    ((retReqs A B reqs).map (remRec (targetAfter A B reqs))).map
      (fun rc => (rc.item, rc.quantity)) = retItems A B reqs := by
  unfold retReqs retItems
  rw [List.map_append, List.map_append]
  congr 1
  · rw [List.map_map, List.map_filterMap]
    apply List.filterMap_congr
    intro p hp
    cases hm : fwdMatch A B p with
    | none =>
      unfold retReqM retItemM
      rw [hm]
      rfl
    | some m =>
      unfold retReqM retItemM
      rw [hm, Option.map_some', Option.map_some']
      show some ((remRec (targetAfter A B reqs) ((m.id, reqMoved A p) : Nat × Int)).item,
        (remRec (targetAfter A B reqs) ((m.id, reqMoved A p) : Nat × Int)).quantity) = _
      have hrec : remRec (targetAfter A B reqs) ((m.id, reqMoved A p) : Nat × Int) =
          ⟨⟨m.id, m.name, m.itype, reqMoved A p⟩, reqMoved A p, false⟩ := by
        unfold remRec
        have hf : findItem (targetAfter A B reqs) ((m.id, reqMoved A p) : Nat × Int).1 =
            some { m with quantity := m.quantity + reqMoved A p } :=
          findItem_targetAfter_matched A B reqs p m hBnd hpairs hreqnd hall hp hm
        rw [hf]
        show (if 1 ≤ max 0 (m.quantity + reqMoved A p - reqMoved A p)
            then (⟨⟨m.id, m.name, m.itype, reqMoved A p⟩, reqMoved A p, false⟩ : RemovedRec)
            else ⟨{ m with quantity := m.quantity + reqMoved A p },
              m.quantity + reqMoved A p, true⟩) = _
        rw [show m.quantity + reqMoved A p - reqMoved A p = m.quantity from by ring,
          if_pos (le_max_of_le_right (hqB m (fwdMatch_mem A B p m hm)))]
      rw [hrec]
      rfl
  · rw [List.map_map, List.map_filterMap]
    apply List.filterMap_congr
    intro p hp
    cases hm : fwdMatch A B p with
    | some m =>
      unfold retReqC retItemC
      rw [hm]
      rfl
    | none =>
      unfold retReqC retItemC
      rw [hm]
      show some ((remRec (targetAfter A B reqs)
          (((reqLine A p).id, reqMoved A p) : Nat × Int)).item,
        (remRec (targetAfter A B reqs)
          (((reqLine A p).id, reqMoved A p) : Nat × Int)).quantity) = _
      have hrec : remRec (targetAfter A B reqs)
          (((reqLine A p).id, reqMoved A p) : Nat × Int) =
          ⟨{ reqLine A p with quantity := reqMoved A p }, reqMoved A p, true⟩ := by
        unfold remRec
        have hdisjp : ∀ b ∈ B, b.id ≠ (reqLine A p).id := fun b hb hc =>
          hdisj (reqLine A p) (reqLine_mem A p (hall p hp)) b hb hc.symm
        have hf : findItem (targetAfter A B reqs)
            (((reqLine A p).id, reqMoved A p) : Nat × Int).1 =
            some { reqLine A p with quantity := reqMoved A p } :=
          findItem_targetAfter_created A B reqs p hdisjp hreqnd hall hp hm
        rw [hf]
        show (if 1 ≤ max 0 (reqMoved A p - reqMoved A p)
            then (⟨⟨(reqLine A p).id, (reqLine A p).name, (reqLine A p).itype,
              reqMoved A p⟩, reqMoved A p, false⟩ : RemovedRec)
            else ⟨{ reqLine A p with quantity := reqMoved A p }, reqMoved A p, true⟩) = _
        rw [show reqMoved A p - reqMoved A p = (0:Int) from by ring, if_neg (by simp)]
      rw [hrec]

/- ------------------------------------------------------------------ -/
/- Matching during the return add against the reduced source.          -/
/- ------------------------------------------------------------------ -/

theorem remLine_reqLine (A : Inventory) (reqs : List (Nat × Int)) (p : Nat × Int)
    (hreqnd : (reqs.map Prod.fst).Nodup)
    (hall : ∀ q ∈ reqs, (findItem A q.1).isSome)
    (hp : p ∈ reqs) :
    remLine reqs (reqLine A p) =
      if reqKeeps A p then some (descLine A p) else none := by
  unfold remLine
  have hf : reqs.find? (fun q => q.1 == (reqLine A p).id) = some p := by
    have h2 : reqs.find? (fun v => v.1 == p.1) = some p :=
      find?_key_eq_of_nodup reqs hreqnd p hp
    rw [reqLine_id A p (hall p hp)]
    exact h2
  rw [hf]
  show (if 1 ≤ max 0 ((reqLine A p).quantity - p.2)
      then some ({ reqLine A p with quantity := max 0 ((reqLine A p).quantity - p.2) } : Item)
      else none) = _
  unfold descLine
  by_cases hk : reqKeeps A p = true
  · rw [if_pos ((reqKeeps_iff A p).mp hk), if_pos hk]
  · rw [if_neg (fun hx => hk ((reqKeeps_iff A p).mpr hx)), if_neg hk]

theorem remLine_some_shape (reqs : List (Nat × Int)) (a x : Item)
    (h : remLine reqs a = some x) :
    x.id = a.id ∧ x.name = a.name ∧ x.itype = a.itype := by
  unfold remLine at h
  split at h
  · injection h with h1; rw [← h1]; exact ⟨rfl, rfl, rfl⟩
  · split at h
    · injection h with h1; rw [← h1]; exact ⟨rfl, rfl, rfl⟩
    · exact Option.noConfusion h

theorem getSimilarItem_A1 (A B : Inventory) (reqs : List (Nat × Int))
    (p : Nat × Int) (i : Nat)
    (hAnd : (A.map Item.id).Nodup)
    (hpairs : (A.map pairOf).Nodup)
    (hreqnd : (reqs.map Prod.fst).Nodup)
    (hall : ∀ q ∈ reqs, (findItem A q.1).isSome)
    (hp : p ∈ reqs)
    (hi : (∀ a ∈ A, a.id ≠ i) ∨ i = p.1) :
    getSimilarItem (A.filterMap (remLine reqs)) i
        (reqLine A p).name (reqLine A p).itype =
      if reqKeeps A p then some (descLine A p) else none := by
  have hremp := remLine_reqLine A reqs p hreqnd hall hp
  have hdecode : ∀ y ∈ A.filterMap (remLine reqs),
      (y.id == i || (y.name == (reqLine A p).name && y.itype == (reqLine A p).itype)) = true →
      ∃ a ∈ A, remLine reqs a = some y ∧ a = reqLine A p := by
    intro y hy hpy
    obtain ⟨a, ha, hay⟩ := List.mem_filterMap.mp hy
    obtain ⟨hid, hnm, hit⟩ := remLine_some_shape reqs a y hay
    rcases Bool.or_eq_true_iff.mp hpy with hidb | hpair
    · have hyi : y.id = i := by simpa using hidb
      rcases hi with hno | hip
      · exfalso
        apply hno a ha
        rw [← hid]
        exact hyi
      · have hap : a.id = p.1 := by rw [← hid, hyi, hip]
        have haln : a = reqLine A p := by
          have h1 : findItem A a.id = some a := findItem_eq_self A hAnd a ha
          have h2 : findItem A p.1 = some (reqLine A p) :=
            findItem_eq_reqLine A p (hall p hp)
          rw [hap] at h1
          rw [h1] at h2
          exact Option.some_injective _ h2
        exact ⟨a, ha, hay, haln⟩
    · have hpa : pairOf a = pairOf (reqLine A p) := by
        unfold pairOf
        have hb : y.name = (reqLine A p).name ∧ y.itype = (reqLine A p).itype := by
          simpa using hpair
        rw [← hnm, ← hit]
        exact Prod.ext hb.1 hb.2
      have haln : a = reqLine A p :=
        List.inj_on_of_nodup_map hpairs ha (reqLine_mem A p (hall p hp)) hpa
      exact ⟨a, ha, hay, haln⟩
  by_cases hk : reqKeeps A p = true
  · rw [if_pos hk]
    rw [if_pos hk] at hremp
    unfold getSimilarItem
    apply find?_eq_some_of_unique
    · exact List.mem_filterMap.mpr ⟨reqLine A p, reqLine_mem A p (hall p hp), hremp⟩
    · show ((descLine A p).id == i ||
        ((descLine A p).name == (reqLine A p).name &&
         (descLine A p).itype == (reqLine A p).itype)) = true
      apply Bool.or_eq_true_iff.mpr
      right
      show (((reqLine A p).name == (reqLine A p).name) &&
        ((reqLine A p).itype == (reqLine A p).itype)) = true
      simp
    · intro y hy hpy
      obtain ⟨a, ha, hay, haln⟩ := hdecode y hy hpy
      rw [haln, hremp] at hay
      exact (Option.some_injective _ hay).symm
  · rw [if_neg hk]
    rw [if_neg hk] at hremp
    unfold getSimilarItem
    apply List.find?_eq_none.mpr
    intro y hy hpy
    obtain ⟨a, ha, hay, haln⟩ := hdecode y hy hpy
    rw [haln, hremp] at hay
    exact Option.noConfusion hay

theorem reqKeeps_max (A : Inventory) (p : Nat × Int) (hk : reqKeeps A p = true) :
    max 0 ((reqLine A p).quantity - p.2) = (reqLine A p).quantity - p.2 := by
  have h1 := (reqKeeps_iff A p).mp hk
  rcases le_or_lt 0 ((reqLine A p).quantity - p.2) with h | h
  · exact max_eq_right h
  · exfalso
    rw [max_eq_left h.le] at h1
    omega

theorem reqMoved_keep (A : Inventory) (p : Nat × Int) (hk : reqKeeps A p = true) :
    reqMoved A p = p.2 := by
  unfold reqMoved
  rw [if_pos hk]

theorem reqMoved_dead (A : Inventory) (p : Nat × Int) (hk : ¬ reqKeeps A p = true) :
    reqMoved A p = (reqLine A p).quantity := by
  unfold reqMoved
  rw [if_neg hk]

theorem retAdd_ups (A B : Inventory) (reqs : List (Nat × Int))
    (hAnd : (A.map Item.id).Nodup)
    (hpairs : (A.map pairOf).Nodup)
    (hreqnd : (reqs.map Prod.fst).Nodup)
    (hall : ∀ q ∈ reqs, (findItem A q.1).isSome)
    (hdisj : ∀ a ∈ A, ∀ b ∈ B, a.id ≠ b.id) :
    (retItems A B reqs).filterMap (addUp (A.filterMap (remLine reqs))) =
      retUps A B reqs := by
  unfold retItems retUps
  rw [List.filterMap_append]
  congr 1
  · rw [List.filterMap_filterMap]
    apply List.filterMap_congr
    intro p hp
    cases hm : fwdMatch A B p with
    | none =>
      unfold retItemM retUpM
      rw [hm]
      rfl
    | some m =>
      unfold retItemM retUpM
      rw [hm, Option.map_some']
      show addUp (A.filterMap (remLine reqs))
        ((⟨m.id, m.name, m.itype, reqMoved A p⟩ : Item), reqMoved A p) = _
      unfold addUp addMatch
      show (getSimilarItem (A.filterMap (remLine reqs)) m.id m.name m.itype).map _ = _
      have hpair := fwdMatch_pair A B p m hm
      have hdisjm : ∀ a ∈ A, a.id ≠ m.id := fun a ha =>
        hdisj a ha m (fwdMatch_mem A B p m hm)
      rw [hpair.1, hpair.2,
        getSimilarItem_A1 A B reqs p m.id hAnd hpairs hreqnd hall hp (Or.inl hdisjm)]
      by_cases hk : reqKeeps A p = true
      · rw [if_pos hk, if_pos hk, Option.map_some']
        congr 1
        apply Prod.ext
        · show (descLine A p).id = p.1
          exact reqLine_id A p (hall p hp)
        · show (descLine A p).quantity + reqMoved A p = (reqLine A p).quantity
          show max 0 ((reqLine A p).quantity - p.2) + reqMoved A p = _
          rw [reqKeeps_max A p hk, reqMoved_keep A p hk]
          ring
      · rw [if_neg hk, if_neg hk]
        rfl
  · rw [List.filterMap_filterMap]
    apply List.filterMap_congr
    intro p hp
    cases hm : fwdMatch A B p with
    | some m =>
      unfold retItemC retUpC
      rw [hm]
      rfl
    | none =>
      unfold retItemC retUpC
      rw [hm]
      show addUp (A.filterMap (remLine reqs))
        (({ reqLine A p with quantity := reqMoved A p } : Item), reqMoved A p) = _
      unfold addUp addMatch
      show (getSimilarItem (A.filterMap (remLine reqs))
        (reqLine A p).id (reqLine A p).name (reqLine A p).itype).map _ = _
      rw [getSimilarItem_A1 A B reqs p (reqLine A p).id hAnd hpairs hreqnd hall hp
        (Or.inr (reqLine_id A p (hall p hp)))]
      by_cases hk : reqKeeps A p = true
      · rw [if_pos hk, if_pos hk, Option.map_some']
        congr 1
        apply Prod.ext
        · show (descLine A p).id = p.1
          exact reqLine_id A p (hall p hp)
        · show (descLine A p).quantity + reqMoved A p = (reqLine A p).quantity
          show max 0 ((reqLine A p).quantity - p.2) + reqMoved A p = _
          rw [reqKeeps_max A p hk, reqMoved_keep A p hk]
          ring
      · rw [if_neg hk, if_neg hk]
        rfl

theorem retAdd_creates (A B : Inventory) (reqs : List (Nat × Int))
    (hAnd : (A.map Item.id).Nodup)
    (hpairs : (A.map pairOf).Nodup)
    (hreqnd : (reqs.map Prod.fst).Nodup)
    (hall : ∀ q ∈ reqs, (findItem A q.1).isSome)
    (hdisj : ∀ a ∈ A, ∀ b ∈ B, a.id ≠ b.id) :
    (retItems A B reqs).filterMap (addCreate (A.filterMap (remLine reqs))) =
      retCreates A B reqs := by
  unfold retItems retCreates
  rw [List.filterMap_append]
  congr 1
  · rw [List.filterMap_filterMap]
    apply List.filterMap_congr
    intro p hp
    cases hm : fwdMatch A B p with
    | none =>
      unfold retItemM retCreateM
      rw [hm]
      rfl
    | some m =>
      unfold retItemM retCreateM
      rw [hm, Option.map_some']
      have hpair := fwdMatch_pair A B p m hm
      have hdisjm : ∀ a ∈ A, a.id ≠ m.id := fun a ha =>
        hdisj a ha m (fwdMatch_mem A B p m hm)
      show addCreate (A.filterMap (remLine reqs))
          ((⟨m.id, m.name, m.itype, reqMoved A p⟩ : Item), reqMoved A p) =
        (if reqKeeps A p = true then none
         else some (⟨m.id, m.name, m.itype, reqMoved A p⟩ : Item))
      unfold addCreate addMatch
      show (match getSimilarItem (A.filterMap (remLine reqs)) m.id m.name m.itype with
        | some _ => none
        | none => some (⟨m.id, m.name, m.itype, reqMoved A p⟩ : Item)) = _
      rw [hpair.1, hpair.2,
        getSimilarItem_A1 A B reqs p m.id hAnd hpairs hreqnd hall hp (Or.inl hdisjm)]
      by_cases hk : reqKeeps A p = true
      · rw [if_pos hk, if_pos hk]
      · rw [if_neg hk, if_neg hk]
  · rw [List.filterMap_filterMap]
    apply List.filterMap_congr
    intro p hp
    cases hm : fwdMatch A B p with
    | some m =>
      unfold retItemC retCreateC
      rw [hm]
      rfl
    | none =>
      unfold retItemC retCreateC
      rw [hm]
      show addCreate (A.filterMap (remLine reqs))
          (({ reqLine A p with quantity := reqMoved A p } : Item), reqMoved A p) =
        (if reqKeeps A p = true then none
         else some ({ reqLine A p with quantity := reqMoved A p } : Item))
      unfold addCreate addMatch
      show (match getSimilarItem (A.filterMap (remLine reqs))
          (reqLine A p).id (reqLine A p).name (reqLine A p).itype with
        | some _ => none
        | none => some ({ reqLine A p with quantity := reqMoved A p } : Item)) = _
      rw [getSimilarItem_A1 A B reqs p (reqLine A p).id hAnd hpairs hreqnd hall hp
        (Or.inr (reqLine_id A p (hall p hp)))]
      by_cases hk : reqKeeps A p = true
      · rw [if_pos hk, if_pos hk]
      · rw [if_neg hk, if_neg hk]

theorem retUpM_shape (A B : Inventory) (p : Nat × Int) (u : Nat × Int)
    (h : retUpM A B p = some u) :
    u = (p.1, (reqLine A p).quantity) ∧ reqKeeps A p = true ∧ fwdMatch A B p ≠ none := by
  unfold retUpM at h
  split at h
  · rename_i m hm
    split at h
    · rename_i hk
      injection h with h1
      exact ⟨h1.symm, hk, by rw [hm]; exact fun hc => Option.noConfusion hc⟩
    · exact Option.noConfusion h
  · exact Option.noConfusion h

theorem retUpC_shape (A B : Inventory) (p : Nat × Int) (u : Nat × Int)
    (h : retUpC A B p = some u) :
    u = (p.1, (reqLine A p).quantity) ∧ reqKeeps A p = true ∧ fwdMatch A B p = none := by
  unfold retUpC at h
  split at h
  · exact Option.noConfusion h
  · rename_i hm
    split at h
    · rename_i hk
      injection h with h1
      exact ⟨h1.symm, hk, hm⟩
    · exact Option.noConfusion h

theorem retUps_decode (A B : Inventory) (reqs : List (Nat × Int)) (u : Nat × Int)
    (hu : u ∈ retUps A B reqs) :
    ∃ p ∈ reqs, reqKeeps A p = true ∧ u = (p.1, (reqLine A p).quantity) := by
  unfold retUps at hu
  rcases List.mem_append.mp hu with h | h
  · obtain ⟨p, hp, hpu⟩ := List.mem_filterMap.mp h
    obtain ⟨h1, h2, _⟩ := retUpM_shape A B p u hpu
    exact ⟨p, hp, h2, h1⟩
  · obtain ⟨p, hp, hpu⟩ := List.mem_filterMap.mp h
    obtain ⟨h1, h2, _⟩ := retUpC_shape A B p u hpu
    exact ⟨p, hp, h2, h1⟩

theorem retUps_keys_nodup (A B : Inventory) (reqs : List (Nat × Int))
    (hreqnd : (reqs.map Prod.fst).Nodup) :
    ((retUps A B reqs).map Prod.fst).Nodup := by
  unfold retUps
  rw [List.map_append, List.nodup_append]
  refine ⟨?_, ?_, ?_⟩
  · apply nodup_filterMap_keys reqs _ Prod.fst hreqnd
    intro p hp
    cases hu : retUpM A B p with
    | none => exact Or.inl rfl
    | some u =>
      obtain ⟨h1, _, _⟩ := retUpM_shape A B p u hu
      exact Or.inr ⟨(reqLine A p).quantity, by rw [h1]⟩
  · apply nodup_filterMap_keys reqs _ Prod.fst hreqnd
    intro p hp
    cases hu : retUpC A B p with
    | none => exact Or.inl rfl
    | some u =>
      obtain ⟨h1, _, _⟩ := retUpC_shape A B p u hu
      exact Or.inr ⟨(reqLine A p).quantity, by rw [h1]⟩
  · intro k hk1 hk2
    obtain ⟨u, hu, huk⟩ := List.mem_map.mp hk1
    obtain ⟨p, hp, hpu⟩ := List.mem_filterMap.mp hu
    obtain ⟨h1, _, h3⟩ := retUpM_shape A B p u hpu
    obtain ⟨v, hv, hvk⟩ := List.mem_map.mp hk2
    obtain ⟨q, hq, hqv⟩ := List.mem_filterMap.mp hv
    obtain ⟨g1, _, g3⟩ := retUpC_shape A B q v hqv
    have hkeys : p.1 = q.1 := by
      rw [h1] at huk
      rw [g1] at hvk
      exact huk.trans hvk.symm
    have hpq : p = q := List.inj_on_of_nodup_map hreqnd hp hq hkeys
    rw [hpq] at h3
    exact h3 g3

theorem retUps_mem_keep (A B : Inventory) (reqs : List (Nat × Int)) (p : Nat × Int)
    (hp : p ∈ reqs) (hk : reqKeeps A p = true) :
    (p.1, (reqLine A p).quantity) ∈ retUps A B reqs := by
  unfold retUps
  apply List.mem_append.mpr
  cases hm : fwdMatch A B p with
  | some m =>
    refine Or.inl (List.mem_filterMap.mpr ⟨p, hp, ?_⟩)
    unfold retUpM
    rw [hm]
    show (if reqKeeps A p = true
        then some ((p.1, (reqLine A p).quantity) : Nat × Int) else none) = _
    rw [if_pos hk]
  | none =>
    refine Or.inr (List.mem_filterMap.mpr ⟨p, hp, ?_⟩)
    unfold retUpC
    rw [hm]
    show (if reqKeeps A p = true
        then some ((p.1, (reqLine A p).quantity) : Nat × Int) else none) = _
    rw [if_pos hk]

theorem survive_pointwise (A B : Inventory) (reqs : List (Nat × Int)) (a : Item)
    (hAnd : (A.map Item.id).Nodup)
    (hreqnd : (reqs.map Prod.fst).Nodup)
    (hall : ∀ q ∈ reqs, (findItem A q.1).isSome)
    (ha : a ∈ A) :
    (remLine reqs a).map (updApply (retUps A B reqs)) = surviveLine reqs a := by
  cases hF : reqs.find? (fun p => p.1 == a.id) with
  | none =>
    have hnone := List.find?_eq_none.mp hF
    have hline : remLine reqs a = some a := by unfold remLine; rw [hF]
    have hmiss : updApply (retUps A B reqs) a = a := by
      apply updApply_miss
      intro u hu
      obtain ⟨p, hp, _, h1⟩ := retUps_decode A B reqs u hu
      rw [h1]
      intro hc
      have h2 := hnone p hp
      simp only [beq_iff_eq] at h2
      exact h2 hc
    simp [surviveLine, lineDead, hline, hmiss]
  | some p =>
    have hp := List.mem_of_find?_eq_some hF
    have hpk : p.1 = a.id := by simpa using List.find?_some hF
    have hsome := hall p hp
    have hfind : findItem A p.1 = some a := by
      rw [hpk]; exact findItem_eq_self A hAnd a ha
    have hline : reqLine A p = a := by
      have h2 := findItem_eq_reqLine A p hsome
      rw [hfind] at h2
      exact (Option.some_injective _ h2).symm
    by_cases hk : reqKeeps A p = true
    · have hk2 : (1:Int) ≤ max 0 (a.quantity - p.2) := by
        have h3 := (reqKeeps_iff A p).mp hk
        rwa [hline] at h3
      have hrem : remLine reqs a =
          some { a with quantity := max 0 (a.quantity - p.2) } := by
        unfold remLine
        rw [hF]
        show (if 1 ≤ max 0 (a.quantity - p.2)
            then some ({ a with quantity := max 0 (a.quantity - p.2) } : Item)
            else none) = _
        rw [if_pos hk2]
      have hmem := retUps_mem_keep A B reqs p hp hk
      have hfret : (retUps A B reqs).find?
          (fun u => u.1 == ({ a with quantity := max 0 (a.quantity - p.2) } : Item).id) =
          some (p.1, (reqLine A p).quantity) := by
        have h4 := find?_key_eq_of_nodup _ (retUps_keys_nodup A B reqs hreqnd) _ hmem
        show (retUps A B reqs).find? (fun u => u.1 == a.id) = _
        rw [← hpk]
        exact h4
      have hback : updApply (retUps A B reqs)
          ({ a with quantity := max 0 (a.quantity - p.2) } : Item) = a := by
        unfold updApply
        rw [hfret, hline]
      rw [hrem, Option.map_some', hback]
      have hdead : lineDead reqs a = false := by
        unfold lineDead
        rw [hrem]
        rfl
      simp [surviveLine, hdead]
    · have hk2 : ¬ ((1:Int) ≤ max 0 (a.quantity - p.2)) := by
        intro hx
        exact hk ((reqKeeps_iff A p).mpr (by rwa [hline]))
      have hrem : remLine reqs a = none := by
        unfold remLine
        rw [hF]
        show (if 1 ≤ max 0 (a.quantity - p.2)
            then some ({ a with quantity := max 0 (a.quantity - p.2) } : Item)
            else none) = _
        rw [if_neg hk2]
      have hdead : lineDead reqs a = true := by
        unfold lineDead
        rw [hrem]
        rfl
      rw [hrem]
      simp [surviveLine, hdead]

theorem filterMap_survive (A : Inventory) (reqs : List (Nat × Int)) :
    A.filterMap (surviveLine reqs) = A.filter (fun a => !(lineDead reqs a)) := by
  induction A with
  | nil => rfl
  | cons a t ih =>
    rw [List.filterMap_cons, List.filter_cons]
    cases hd : lineDead reqs a
    · rw [show surviveLine reqs a = some a from by unfold surviveLine; rw [hd]; rfl]
      simp only [hd, Bool.not_false, if_pos]
      rw [ih]
    · rw [show surviveLine reqs a = none from by unfold surviveLine; rw [hd]; rfl]
      simp only [hd, Bool.not_true, if_neg]
      exact ih

theorem alive_map_eq (A B : Inventory) (reqs : List (Nat × Int))
    (hAnd : (A.map Item.id).Nodup)
    (hreqnd : (reqs.map Prod.fst).Nodup)
    (hall : ∀ q ∈ reqs, (findItem A q.1).isSome) :
    (A.filterMap (remLine reqs)).map (updApply (retUps A B reqs)) =
      A.filter (fun a => !(lineDead reqs a)) := by
  rw [List.map_filterMap]
  rw [List.filterMap_congr (fun a ha =>
    survive_pointwise A B reqs a hAnd hreqnd hall ha)]
  exact filterMap_survive A reqs

theorem retCreateM_shape (A B : Inventory) (p : Nat × Int) (c : Item)
    (h : retCreateM A B p = some c) :
    reqKeeps A p = false ∧
      ∃ m, fwdMatch A B p = some m ∧ c = ⟨m.id, m.name, m.itype, reqMoved A p⟩ := by
  unfold retCreateM at h
  split at h
  · rename_i m hm
    split at h
    · exact Option.noConfusion h
    · rename_i hk
      injection h with h1
      exact ⟨Bool.not_eq_true _ ▸ Bool.eq_false_iff.mpr (fun hx => hk hx), m, hm, h1.symm⟩
  · exact Option.noConfusion h

theorem retCreateC_shape (A B : Inventory) (p : Nat × Int) (c : Item)
    (h : retCreateC A B p = some c) :
    reqKeeps A p = false ∧ fwdMatch A B p = none ∧
      c = { reqLine A p with quantity := reqMoved A p } := by
  unfold retCreateC at h
  split at h
  · exact Option.noConfusion h
  · rename_i hm
    split at h
    · exact Option.noConfusion h
    · rename_i hk
      injection h with h1
      exact ⟨Bool.eq_false_iff.mpr (fun hx => hk hx), hm, h1.symm⟩

theorem retCreates_decode (A B : Inventory) (reqs : List (Nat × Int)) (c : Item)
    (hc : c ∈ retCreates A B reqs) :
    ∃ p ∈ reqs, reqKeeps A p = false ∧
      ((∃ m ∈ B, c = (⟨m.id, m.name, m.itype, reqMoved A p⟩ : Item)) ∨
       c = { reqLine A p with quantity := reqMoved A p }) := by
  unfold retCreates at hc
  rcases List.mem_append.mp hc with h | h
  · obtain ⟨p, hp, hpc⟩ := List.mem_filterMap.mp h
    obtain ⟨hk, m, hm, h1⟩ := retCreateM_shape A B p c hpc
    exact ⟨p, hp, hk, Or.inl ⟨m, fwdMatch_mem A B p m hm, h1⟩⟩
  · obtain ⟨p, hp, hpc⟩ := List.mem_filterMap.mp h
    obtain ⟨hk, _, h1⟩ := retCreateC_shape A B p c hpc
    exact ⟨p, hp, hk, Or.inr h1⟩

theorem retCreates_untouched (A B : Inventory) (reqs : List (Nat × Int))
    (hreqnd : (reqs.map Prod.fst).Nodup)
    (hall : ∀ q ∈ reqs, (findItem A q.1).isSome)
    (hdisj : ∀ a ∈ A, ∀ b ∈ B, a.id ≠ b.id) :
    (retCreates A B reqs).map (updApply (retUps A B reqs)) = retCreates A B reqs := by
  have hpt : ∀ c ∈ retCreates A B reqs, updApply (retUps A B reqs) c = c := by
    intro c hc
    obtain ⟨p, hp, hk, hshape⟩ := retCreates_decode A B reqs c hc
    apply updApply_miss
    intro u hu
    obtain ⟨q, hq, hkq, h1⟩ := retUps_decode A B reqs u hu
    rw [h1]
    rcases hshape with ⟨m, hmB, hcm⟩ | hcm
    · rw [hcm]
      show q.1 ≠ m.id
      rw [← reqLine_id A q (hall q hq)]
      exact hdisj (reqLine A q) (reqLine_mem A q (hall q hq)) m hmB
    · rw [hcm]
      show q.1 ≠ (reqLine A p).id
      rw [reqLine_id A p (hall p hp)]
      intro hqp
      have h2 : q = p := List.inj_on_of_nodup_map hreqnd hq hp hqp
      rw [h2, hk] at hkq
      exact Bool.noConfusion hkq
  simpa using List.map_congr_left hpt

theorem filterMap_or_perm {α β : Type} (l : List α) (f g h : α → Option β)
    (hfg : ∀ x ∈ l, (f x = none ∧ h x = g x) ∨ (g x = none ∧ h x = f x)) :
    (l.filterMap f ++ l.filterMap g).Perm (l.filterMap h) := by
  induction l with
  | nil => exact List.Perm.refl _
  | cons a t ih =>
    have iht := ih (fun x hx => hfg x (List.mem_cons_of_mem _ hx))
    rcases hfg a (List.mem_cons_self a t) with ⟨hf, hh⟩ | ⟨hg, hh⟩
    · cases hga : g a with
      | none =>
        rw [hga] at hh
        simp only [List.filterMap_cons, hf, hga, hh]
        exact iht
      | some b =>
        rw [hga] at hh
        simp only [List.filterMap_cons, hf, hga, hh]
        exact (List.perm_middle).trans (iht.cons b)
    · cases hfa : f a with
      | none =>
        rw [hfa] at hh
        simp only [List.filterMap_cons, hfa, hg, hh]
        exact iht
      | some b =>
        rw [hfa] at hh
        simp only [List.filterMap_cons, hfa, hg, hh, List.cons_append]
        exact iht.cons b

theorem retCreates_strip_perm (A B : Inventory) (reqs : List (Nat × Int)) :
    ((retCreates A B reqs).map stripId).Perm ((deadLines A reqs).map stripId) := by
  unfold retCreates deadLines
  rw [List.map_append, List.map_filterMap, List.map_filterMap, List.map_filterMap]
  apply filterMap_or_perm
  intro p hp
  cases hm : fwdMatch A B p with
  | some m =>
    refine Or.inr ⟨?_, ?_⟩
    · unfold retCreateC
      rw [hm]
      rfl
    · unfold retCreateM
      rw [hm]
      show (if reqKeeps A p = true then none else some (reqLine A p)).map stripId =
        ((if reqKeeps A p = true then none
          else some (⟨m.id, m.name, m.itype, reqMoved A p⟩ : Item)).map stripId)
      by_cases hk : reqKeeps A p = true
      · rw [if_pos hk, if_pos hk]
      · rw [if_neg hk, if_neg hk, Option.map_some', Option.map_some']
        have hpair := fwdMatch_pair A B p m hm
        simp [stripId, pairOf, hpair.1, hpair.2, reqMoved_dead A p hk]
  | none =>
    refine Or.inl ⟨?_, ?_⟩
    · unfold retCreateM
      rw [hm]
      rfl
    · unfold retCreateC
      rw [hm]
      show (if reqKeeps A p = true then none else some (reqLine A p)).map stripId =
        ((if reqKeeps A p = true then none
          else some ({ reqLine A p with quantity := reqMoved A p } : Item)).map stripId)
      by_cases hk : reqKeeps A p = true
      · rw [if_pos hk, if_pos hk]
      · rw [if_neg hk, if_neg hk, Option.map_some', Option.map_some']
        simp [stripId, pairOf, reqMoved_dead A p hk]

theorem deadLines_shape (A : Inventory) (p : Nat × Int) (b : Item)
    (h : (if reqKeeps A p then none else some (reqLine A p)) = some b) :
    reqKeeps A p = false ∧ b = reqLine A p := by
  split at h
  · exact Option.noConfusion h
  · rename_i hk
    injection h with h1
    exact ⟨Bool.eq_false_iff.mpr (fun hx => hk hx), h1.symm⟩

theorem deadLines_nodup (A : Inventory) (reqs : List (Nat × Int))
    (hreqnd : (reqs.map Prod.fst).Nodup)
    (hall : ∀ q ∈ reqs, (findItem A q.1).isSome) :
    (deadLines A reqs).Nodup := by
  unfold deadLines
  apply nodup_filterMap_mem reqs _ (List.Nodup.of_map Prod.fst hreqnd)
  intro p hp q hq b hb hb2
  obtain ⟨_, h1⟩ := deadLines_shape A p b hb
  obtain ⟨_, h2⟩ := deadLines_shape A q b hb2
  have hline : reqLine A p = reqLine A q := by rw [← h1, ← h2]
  have hkeys : p.1 = q.1 := by
    rw [← reqLine_id A p (hall p hp), ← reqLine_id A q (hall q hq), hline]
  exact List.inj_on_of_nodup_map hreqnd hp hq hkeys

theorem dead_filter_perm (A : Inventory) (reqs : List (Nat × Int))
    (hAnd : (A.map Item.id).Nodup)
    (hreqnd : (reqs.map Prod.fst).Nodup)
    (hall : ∀ q ∈ reqs, (findItem A q.1).isSome) :
    (A.filter (fun a => lineDead reqs a)).Perm (deadLines A reqs) := by
  apply List.perm_of_nodup_nodup_toFinset_eq
  · exact (List.filter_sublist A).nodup (List.Nodup.of_map Item.id hAnd)
  · exact deadLines_nodup A reqs hreqnd hall
  · apply Finset.ext
    intro x
    rw [List.mem_toFinset, List.mem_toFinset, List.mem_filter]
    constructor
    · rintro ⟨hxA, hxdead⟩
      unfold lineDead at hxdead
      have hrem : remLine reqs x = none := Option.isNone_iff_eq_none.mp hxdead
      cases hF : reqs.find? (fun p => p.1 == x.id) with
      | none =>
        exfalso
        unfold remLine at hrem
        rw [hF] at hrem
        exact Option.noConfusion hrem
      | some p =>
        have hp := List.mem_of_find?_eq_some hF
        have hpk : p.1 = x.id := by simpa using List.find?_some hF
        have hfind : findItem A p.1 = some x := by
          rw [hpk]; exact findItem_eq_self A hAnd x hxA
        have hsome : (findItem A p.1).isSome := by rw [hfind]; rfl
        have hline : reqLine A p = x := by
          have h2 := findItem_eq_reqLine A p hsome
          rw [hfind] at h2
          exact (Option.some_injective _ h2).symm
        have h2 := remLine_reqLine A reqs p hreqnd hall hp
        rw [hline, hrem] at h2
        have hkne : ¬ reqKeeps A p = true := by
          intro hkk
          rw [if_pos hkk] at h2
          exact Option.noConfusion h2
        unfold deadLines
        refine List.mem_filterMap.mpr ⟨p, hp, ?_⟩
        rw [if_neg hkne, hline]
    · intro hx
      unfold deadLines at hx
      obtain ⟨p, hp, hpb⟩ := List.mem_filterMap.mp hx
      obtain ⟨hk, hxeq⟩ := deadLines_shape A p x hpb
      have hkne : ¬ reqKeeps A p = true := by
        rw [hk]; exact fun hc => Bool.noConfusion hc
      refine ⟨by rw [hxeq]; exact reqLine_mem A p (hall p hp), ?_⟩
      have h2 := remLine_reqLine A reqs p hreqnd hall hp
      rw [if_neg hkne] at h2
      unfold lineDead
      rw [hxeq, h2]
      rfl

theorem totalQty_eq_stripSum (l : Inventory) (nm t : Nat) :
    totalQty l nm t = ((l.map stripId).map (stripQty nm t)).sum := by
  induction l with
  | nil => rfl
  | cons a l2 ih =>
    show ((List.filter _ (a :: l2)).map Item.quantity).sum = _
    rw [List.filter_cons, List.map_cons, List.map_cons, List.sum_cons]
    by_cases hcond : (a.name == nm && a.itype == t) = true
    · have h1 : a.name = nm ∧ a.itype = t := by simpa using hcond
      rw [if_pos hcond, List.map_cons, List.sum_cons]
      show a.quantity + totalQty l2 nm t = _
      rw [ih]
      show _ = (if a.name = nm ∧ a.itype = t then a.quantity else (0:Int)) + _
      rw [if_pos h1]
    · have h1 : ¬ (a.name = nm ∧ a.itype = t) := by simpa using hcond
      rw [if_neg hcond]
      show totalQty l2 nm t = _
      rw [ih]
      show _ = (if a.name = nm ∧ a.itype = t then a.quantity else (0:Int)) + _
      rw [if_neg h1, zero_add]

theorem totalQty_stripPerm (l1 l2 : Inventory) (nm t : Nat)
    (h : (l1.map stripId).Perm (l2.map stripId)) :
    totalQty l1 nm t = totalQty l2 nm t := by
  rw [totalQty_eq_stripSum, totalQty_eq_stripSum]
  exact (h.map (stripQty nm t)).sum_eq

theorem totalQty_append (l1 l2 : Inventory) (nm t : Nat) :
    totalQty (l1 ++ l2) nm t = totalQty l1 nm t + totalQty l2 nm t := by
  unfold totalQty
  rw [List.filter_append, List.map_append, List.sum_append]

theorem totalQty_perm (l1 l2 : Inventory) (h : l1.Perm l2) (nm t : Nat) :
    totalQty l1 nm t = totalQty l2 nm t := by
  unfold totalQty
  exact ((h.filter _).map _).sum_eq

theorem retCreates_totalQty (A B : Inventory) (reqs : List (Nat × Int))
    (hAnd : (A.map Item.id).Nodup)
    (hreqnd : (reqs.map Prod.fst).Nodup)
    (hall : ∀ q ∈ reqs, (findItem A q.1).isSome) (nm t : Nat) :
    totalQty (retCreates A B reqs) nm t =
      totalQty (A.filter (fun a => lineDead reqs a)) nm t := by
  apply totalQty_stripPerm
  refine (retCreates_strip_perm A B reqs).trans ?_
  exact ((dead_filter_perm A reqs hAnd hreqnd hall).map stripId).symm

theorem totalQty_filter_split (A : Inventory) (reqs : List (Nat × Int)) (nm t : Nat) :
    totalQty A nm t =
      totalQty (A.filter (fun a => lineDead reqs a)) nm t +
      totalQty (A.filter (fun a => !(lineDead reqs a))) nm t := by
  have hperm := List.filter_append_perm (fun a => lineDead reqs a) A
  have h1 := totalQty_perm _ _ hperm.symm nm t
  rw [h1, totalQty_append]

theorem transfer_fwd_eq (A B : Inventory) (reqs : List (Nat × Int))
    (hAnd : (A.map Item.id).Nodup)
    (hBnd : (B.map Item.id).Nodup)
    (hpairs : (A.map pairOf).Nodup)
    (hreqnd : (reqs.map Prod.fst).Nodup)
    (hall : ∀ p ∈ reqs, (findItem A p.1).isSome)
    (hdisj : ∀ a ∈ A, ∀ b ∈ B, a.id ≠ b.id) :
    transferItems A B reqs =
      some (A.filterMap (remLine reqs), targetAfter A B reqs,
        reqs.filterMap (fwdRec A B) ++
          (fwdCreates A B reqs).map (fun it => (⟨it, it.quantity⟩ : AddedRec))) := by
  have hdisjB : ∀ p ∈ reqs, ∀ b ∈ B, b.id ≠ (reqLine A p).id := fun p hp b hb hc =>
    hdisj (reqLine A p) (reqLine_mem A p (hall p hp)) b hb hc.symm
  unfold transferItems
  rw [removeItems_eq A reqs hAnd hreqnd hall]
  show some (A.filterMap (remLine reqs),
      (addItems B ((reqs.map (remRec A)).map (fun rc => (rc.item, rc.quantity)))).1,
      (addItems B ((reqs.map (remRec A)).map (fun rc => (rc.item, rc.quantity)))).2) = _
  rw [remRec_pair_eq A reqs hall]
  have hups : (reqs.map (fun p =>
      (({ reqLine A p with quantity := reqMoved A p } : Item), reqMoved A p))).filterMap
        (addUp B) = fwdUps A B reqs := by
    rw [List.filterMap_map]
    exact List.filterMap_congr (fun p hp => addUp_transfer A B p (hdisjB p hp))
  have hcrs : (reqs.map (fun p =>
      (({ reqLine A p with quantity := reqMoved A p } : Item), reqMoved A p))).filterMap
        (addCreate B) = fwdCreates A B reqs := by
    rw [List.filterMap_map]
    exact List.filterMap_congr (fun p hp => addCreate_transfer A B p (hdisjB p hp))
  have hrecs : (reqs.map (fun p =>
      (({ reqLine A p with quantity := reqMoved A p } : Item), reqMoved A p))).filterMap
        (addRecM B) = reqs.filterMap (fwdRec A B) := by
    rw [List.filterMap_map]
    exact List.filterMap_congr (fun p hp => addRecM_transfer A B p (hdisjB p hp))
  have hnd2 : (((reqs.map (fun p =>
      (({ reqLine A p with quantity := reqMoved A p } : Item), reqMoved A p))).filterMap
        (addUp B)).map Prod.fst).Nodup := by
    rw [hups, fwdUps_keys]
    exact matchedKeys_nodup A B reqs hBnd hpairs hreqnd hall
  rw [addItems_eq B _ hnd2, hups, hcrs, hrecs]
  have htgt : (B ++ fwdCreates A B reqs).map (updApply (fwdUps A B reqs)) =
      targetAfter A B reqs := by
    rw [List.map_append]
    unfold targetAfter
    congr 1
    have hpt : ∀ c ∈ fwdCreates A B reqs, updApply (fwdUps A B reqs) c = c := by
      intro c hc
      obtain ⟨p, hp, hm, hc2⟩ := mem_fwdCreates A B reqs c hc
      apply updApply_miss
      intro u hu
      obtain ⟨q, hq, m, hmq, hu2⟩ := mem_fwdUps_decode A B reqs u hu
      rw [hu2, hc2]
      show m.id ≠ ({ reqLine A p with quantity := reqMoved A p } : Item).id
      show m.id ≠ (reqLine A p).id
      exact fun hc3 =>
        hdisj (reqLine A p) (reqLine_mem A p (hall p hp)) m
          (fwdMatch_mem A B q m hmq) hc3.symm
    simpa using List.map_congr_left hpt
  rw [htgt]

theorem fwd_records_pairs (A B : Inventory) (reqs : List (Nat × Int)) :
    (reqs.filterMap (fwdRec A B) ++
      (fwdCreates A B reqs).map (fun it => (⟨it, it.quantity⟩ : AddedRec))).map
        (fun rc => (rc.item.id, rc.quantity)) = retReqs A B reqs := by
  unfold retReqs
  rw [List.map_append]
  congr 1
  · rw [List.map_filterMap]
    apply List.filterMap_congr
    intro p hp
    unfold fwdRec retReqM
    cases hm : fwdMatch A B p
    · rfl
    · rfl
  · rw [List.map_map]
    unfold fwdCreates
    rw [List.map_filterMap]
    apply List.filterMap_congr
    intro p hp
    unfold fwdCreate retReqC
    cases hm : fwdMatch A B p
    · rfl
    · rfl

theorem transfer_ret_eq (A B : Inventory) (reqs : List (Nat × Int))
    (hAnd : (A.map Item.id).Nodup)
    (hBnd : (B.map Item.id).Nodup)
    (hpairs : (A.map pairOf).Nodup)
    (hreqnd : (reqs.map Prod.fst).Nodup)
    (hall : ∀ p ∈ reqs, (findItem A p.1).isSome)
    (hdisj : ∀ a ∈ A, ∀ b ∈ B, a.id ≠ b.id)
    (hqB : ∀ b ∈ B, 1 ≤ b.quantity) :
    ∃ rcs, transferItems (targetAfter A B reqs) (A.filterMap (remLine reqs))
        (retReqs A B reqs) =
      some (B, A.filter (fun a => !(lineDead reqs a)) ++ retCreates A B reqs, rcs) := by
  refine ⟨(addItems (A.filterMap (remLine reqs)) (retItems A B reqs)).2, ?_⟩
  unfold transferItems
  rw [removeItems_eq (targetAfter A B reqs) (retReqs A B reqs)
    (targetAfter_ids_nodup A B reqs hBnd hdisj hreqnd hall)
    (retReqs_keys_nodup A B reqs hBnd hpairs hreqnd hall hdisj)
    (retReqs_all_found A B reqs hBnd hpairs hreqnd hall hdisj)]
  show some ((targetAfter A B reqs).filterMap (remLine (retReqs A B reqs)),
      (addItems (A.filterMap (remLine reqs))
        (((retReqs A B reqs).map (remRec (targetAfter A B reqs))).map
          (fun rc => (rc.item, rc.quantity)))).1,
      (addItems (A.filterMap (remLine reqs))
        (((retReqs A B reqs).map (remRec (targetAfter A B reqs))).map
          (fun rc => (rc.item, rc.quantity)))).2) = _
  rw [return_remove_restores A B reqs hBnd hpairs hreqnd hall hdisj hqB,
    return_remove_records A B reqs hBnd hpairs hreqnd hall hdisj hqB]
  have hnd2 : (((retItems A B reqs).filterMap
      (addUp (A.filterMap (remLine reqs)))).map Prod.fst).Nodup := by
    rw [retAdd_ups A B reqs hAnd hpairs hreqnd hall hdisj]
    exact retUps_keys_nodup A B reqs hreqnd
  rw [addItems_eq _ _ hnd2,
    retAdd_ups A B reqs hAnd hpairs hreqnd hall hdisj,
    retAdd_creates A B reqs hAnd hpairs hreqnd hall hdisj,
    List.map_append, alive_map_eq A B reqs hAnd hreqnd hall,
    retCreates_untouched A B reqs hreqnd hall hdisj]

/- ------------------------------------------------------------------ -/
/- Claim C1: removeItems clamps at zero and reports actual removals.   -/
/- ------------------------------------------------------------------ -/

/-- Claim C1: for every call to removeItems on a target line with current
quantity c and requested quantity r, the resulting line quantity is
max(0, c - r); when the result is 0 the line is deleted and the record
reports the actual amount removed c with deleted = true, and otherwise
it reports r with deleted = false. -/
theorem claim_C1_removeItems_clamps (inv : Inventory) (i : Nat) (r : Int) (ln : Item)
    (hfind : findItem inv i = some ln) :
    ∃ inv2 rc, removeItems inv [(i, r)] = some (inv2, [rc]) ∧
      qtyOrZero inv2 i = max 0 (ln.quantity - r) ∧
      (if r < ln.quantity then
        findItem inv2 i = some { ln with quantity := ln.quantity - r } ∧
          rc = ⟨{ ln with quantity := r }, r, false⟩
       else
        findItem inv2 i = none ∧ rc = ⟨ln, ln.quantity, true⟩) := by
  simp only [removeItems, removeLoop, hfind]
  by_cases hlt : r < ln.quantity
  · have hkeep : (1:Int) ≤ max 0 (ln.quantity - r) := le_max_of_le_right (by omega)
    have hmax : max 0 (ln.quantity - r) = ln.quantity - r := max_eq_right (by omega)
    rw [if_pos hkeep]
    refine ⟨_, _, rfl, ?_, ?_⟩
    · rw [qtyOrZero, List.foldl_cons, List.foldl_nil, filter_contains_nil,
        findItem_applyUpdate_self, hfind]
      simp [hmax]
    · rw [if_pos hlt]
      refine ⟨?_, rfl⟩
      rw [List.foldl_cons, List.foldl_nil, filter_contains_nil,
        findItem_applyUpdate_self, hfind]
      simp [hmax]
  · have hdel : ¬ ((1:Int) ≤ max 0 (ln.quantity - r)) := by
      simp only [le_max_iff]
      omega
    have hmax : max 0 (ln.quantity - r) = 0 := max_eq_left (by omega)
    rw [if_neg hdel]
    refine ⟨_, _, rfl, ?_, ?_⟩
    · rw [qtyOrZero, List.foldl_nil, findItem_filter_dels _ _ _ (by simp), hmax]
    · rw [if_neg hlt]
      exact ⟨by rw [List.foldl_nil]; exact findItem_filter_dels _ _ _ (by simp), rfl⟩

theorem claim_C1_witness :
    findItem [⟨1, 0, 0, 10⟩] 1 = some ⟨1, 0, 0, 10⟩ ∧
    (∃ inv2 rc, removeItems [⟨1, 0, 0, 10⟩] [(1, 3)] = some (inv2, [rc]) ∧
      qtyOrZero inv2 1 = max 0 ((10:Int) - 3) ∧
      (if (3:Int) < 10 then
        findItem inv2 1 = some ⟨1, 0, 0, 10 - 3⟩ ∧ rc = ⟨⟨1, 0, 0, 3⟩, 3, false⟩
       else
        findItem inv2 1 = none ∧ rc = ⟨⟨1, 0, 0, 10⟩, 10, true⟩)) :=
  ⟨rfl, claim_C1_removeItems_clamps [⟨1, 0, 0, 10⟩] 1 3 ⟨1, 0, 0, 10⟩ rfl⟩

/- ------------------------------------------------------------------ -/
/- Claim C3: sequential addItems calls with the same identity merge.   -/
/- ------------------------------------------------------------------ -/

/-- Claim C3: for every item identity (id, name, type) and quantities n
and m, addItems with quantity n followed by addItems with the same
identity and quantity m on an initially empty pile yields exactly one
inventory line whose quantity is n + m. -/
theorem claim_C3_addItems_merges (i nm t : Nat) (q0 q1 n m : Int) :
    (addItems (addItems [] [(⟨i, nm, t, q0⟩, n)]).1 [(⟨i, nm, t, q1⟩, m)]).1 =
      [⟨i, nm, t, n + m⟩] := by
  simp [addItems, addLoop, getSimilarItem, applyUpdate]

/- ------------------------------------------------------------------ -/
/- Claim C10: one addItems call matches only the pre-call snapshot.    -/
/- ------------------------------------------------------------------ -/

/-- Claim C10: within one addItems call whose list has two entries
neither of which matches a line of the pre-call inventory snapshot,
matching is performed only against that snapshot, so the call creates
two separate lines (even when the two entries share an identity)
rather than merging the second entry into the line created for the
first. -/
theorem claim_C10_snapshot_matching (inv : Inventory) (itm1 itm2 : Item) (q1 q2 : Int)
    (h1 : getSimilarItem inv itm1.id itm1.name itm1.itype = none)
    (h2 : getSimilarItem inv itm2.id itm2.name itm2.itype = none) :
    (addItems inv [(itm1, q1), (itm2, q2)]).1 =
      inv ++ [{ itm1 with quantity := q1 }, { itm2 with quantity := q2 }] ∧
    (addItems inv [(itm1, q1), (itm2, q2)]).2 =
      [⟨{ itm1 with quantity := q1 }, q1⟩, ⟨{ itm2 with quantity := q2 }, q2⟩] := by
  simp [addItems, addLoop, h1, h2]

theorem claim_C10_witness :
    getSimilarItem [⟨5, 6, 7, 8⟩] 0 1 2 = none ∧
    ((addItems [⟨5, 6, 7, 8⟩] [(⟨0, 1, 2, 9⟩, 3), (⟨0, 1, 2, 9⟩, 4)]).1 =
        [⟨5, 6, 7, 8⟩] ++ [⟨0, 1, 2, 3⟩, ⟨0, 1, 2, 4⟩] ∧
      (addItems [⟨5, 6, 7, 8⟩] [(⟨0, 1, 2, 9⟩, 3), (⟨0, 1, 2, 9⟩, 4)]).2 =
        [⟨⟨0, 1, 2, 3⟩, 3⟩, ⟨⟨0, 1, 2, 4⟩, 4⟩]) :=
  ⟨rfl, claim_C10_snapshot_matching [⟨5, 6, 7, 8⟩] ⟨0, 1, 2, 9⟩ ⟨0, 1, 2, 9⟩ 3 4 rfl rfl⟩

/- ------------------------------------------------------------------ -/
/- Inversion lemmas for the state operations.                          -/
/- ------------------------------------------------------------------ -/

theorem prependEffects_done (pre : List Effect) (r : OpResult) (d2 : PileData)
    (diff : PileDiff) (effs : List Effect)
    (h : prependEffects pre r = OpResult.done d2 diff effs) :
    ∃ effs0, r = OpResult.done d2 diff effs0 ∧ effs = pre ++ effs0 := by
  cases r with
  | done d3 diff3 effs3 =>
    simp only [prependEffects] at h
    injection h with h1 h2 h3
    exact ⟨effs3, by rw [h1, h2], h3.symm⟩
  | notApplicable => exact OpResult.noConfusion h
  | vetoed => exact OpResult.noConfusion h

theorem updateItemPile_done (hooks : HookEnv) (o n d2 : PileData)
    (diff : PileDiff) (effs : List Effect)
    (h : updateItemPile hooks o n = OpResult.done d2 diff effs) : d2 = n := by
  unfold updateItemPile at h
  split at h
  · exact OpResult.noConfusion h
  · injection h with h1 h2 h3
    exact h1.symm

/- ------------------------------------------------------------------ -/
/- Claim C4: a completed lockItemPile leaves the pile closed.          -/
/- ------------------------------------------------------------------ -/

/-- Claim C4: for every enabled container pile, after a completed
(non-vetoed) lockItemPile call both isItemPileClosed and
isItemPileLocked return true, even if the pile was previously open:
the lock operation force-closes first, so locked implies closed holds
after every completed lock. -/
theorem claim_C4_lock_forces_closed (hooks : HookEnv) (d d2 : PileData)
    (diff : PileDiff) (effs : List Effect)
    (hdone : lockItemPile hooks d = OpResult.done d2 diff effs) :
    isItemPileClosed d2 = true ∧ isItemPileLocked d2 = true := by
  unfold lockItemPile at hdone
  simp only [] at hdone
  split at hdone
  · exact OpResult.noConfusion hdone
  next hec =>
    split at hdone
    · exact OpResult.noConfusion hdone
    · split at hdone
      · exact OpResult.noConfusion hdone
      · obtain ⟨effs0, hup, -⟩ := prependEffects_done _ _ _ _ _ hdone
        have hd2 := updateItemPile_done _ _ _ _ _ _ hup
        have hec2 : (d.enabled && d.isContainer) = true := by
          simpa using hec
        subst hd2
        simp only [Bool.and_eq_true] at hec2
        simp [isItemPileClosed, isItemPileLocked, hec2.1, hec2.2]

theorem claim_C4_witness :
    lockItemPile allowAll ⟨true, true, false, false, false, false, false, false, DeleteWhenEmpty.unset⟩ =
      OpResult.done ⟨true, true, true, true, false, false, false, false, DeleteWhenEmpty.unset⟩
        ⟨none, none, some true, some true, none, none, none, none, none⟩
        [Effect.hookUpdated, Effect.hookClosed, Effect.hookLocked] ∧
    (isItemPileClosed ⟨true, true, true, true, false, false, false, false, DeleteWhenEmpty.unset⟩ = true ∧
     isItemPileLocked ⟨true, true, true, true, false, false, false, false, DeleteWhenEmpty.unset⟩ = true) :=
  ⟨by decide,
   claim_C4_lock_forces_closed allowAll
     ⟨true, true, false, false, false, false, false, false, DeleteWhenEmpty.unset⟩
     ⟨true, true, true, true, false, false, false, false, DeleteWhenEmpty.unset⟩
     ⟨none, none, some true, some true, none, none, none, none, none⟩
     [Effect.hookUpdated, Effect.hookClosed, Effect.hookLocked]
     (by decide)⟩

/- ------------------------------------------------------------------ -/
/- Claim C5: opening a locked pile.                                    -/
/- ------------------------------------------------------------------ -/

/-- Claim C5 counterexample: the claim states that attempting to open a
locked enabled container leaves closed and locked unchanged and
rattles instead.  In the source, API.openItemPile called on a locked
pile (with no hook veto) force-unlocks and opens it in one step: the
result is the OPEN state with closed = false and locked = false, and
no rattle effect occurs. -/
theorem claim_C5_counterexample :
    openItemPile allowAll ⟨true, true, true, true, false, false, true, false, DeleteWhenEmpty.unset⟩ =
      OpResult.done ⟨true, true, false, false, false, false, true, false, DeleteWhenEmpty.unset⟩
        ⟨none, none, some false, some false, none, none, none, none, none⟩
        [Effect.hookUpdated, Effect.hookUnlocked, Effect.hookOpened] ∧
    (⟨true, true, false, false, false, false, true, false, DeleteWhenEmpty.unset⟩ : PileData).closed = false ∧
    (⟨true, true, false, false, false, false, true, false, DeleteWhenEmpty.unset⟩ : PileData).locked = false := by
  decide

/-- Claim C5 amended: for every enabled container pile in the LOCKED
state, the click-interaction open path for a non-GM user never
transitions it to OPEN: clicking while locked leaves closed and locked
unchanged and performs the rattle side effect (locked sound when
configured) without raising an error; the direct openItemPile API,
by contrast, unlocks the pile first (firing PRE_UNLOCK) and opens it. -/
theorem claim_C5_clicked_rattles (hooks : HookEnv) (d : PileData)
    (hen : d.enabled = true) (hc : d.isContainer = true) (hlk : d.locked = true) :
    itemPileClickedContainer hooks false d =
      OpResult.done d emptyDiff
        ((if d.lockedSound then [Effect.soundLocked] else []) ++ [Effect.hookRattled]) := by
  unfold itemPileClickedContainer rattleItemPile
  rw [if_neg (by simp [hen]), if_pos hc, if_pos (by simp [hlk]),
    if_neg (by simp [hen, hc, hlk])]

theorem claim_C5_witness :
    itemPileClickedContainer allowAll false
        ⟨true, true, true, true, false, false, true, false, DeleteWhenEmpty.unset⟩ =
      OpResult.done ⟨true, true, true, true, false, false, true, false, DeleteWhenEmpty.unset⟩
        emptyDiff
        ((if true then [Effect.soundLocked] else []) ++ [Effect.hookRattled]) :=
  claim_C5_clicked_rattles allowAll _ rfl rfl rfl

/- ------------------------------------------------------------------ -/
/- Claim C6: pre-operation hook vetoes.                                -/
/- ------------------------------------------------------------------ -/

/-- Claim C6 failing case: API.unlockItemPile invokes the PRE_UNLOCK hook
but, unlike every sibling operation, never checks the returned value
(api.js line 446 has no hookResult test), so a consumer veto of
PRE_UNLOCK does not abort the operation: with PRE_UNLOCK vetoed and no
other veto, the unlock still mutates the pile to locked = false and
fires the update broadcast. -/
theorem claim_C6_unlock_ignores_veto :
    unlockItemPile ⟨true, true, true, false, true⟩
        ⟨true, true, true, true, false, false, false, false, DeleteWhenEmpty.unset⟩ =
      OpResult.done ⟨true, true, true, false, false, false, false, false, DeleteWhenEmpty.unset⟩
        ⟨none, none, none, some false, none, none, none, none, none⟩
        [Effect.hookUpdated, Effect.hookUnlocked] := by
  decide

/- ------------------------------------------------------------------ -/
/- Claim C7: closeItemPile on an already-closed pile is idempotent.    -/
/- ------------------------------------------------------------------ -/

/-- Claim C7: calling closeItemPile on an enabled container pile that is
already closed (with no hook veto) produces the unchanged pile data,
an empty diff, and no effects at all: no close sound is played, no
close-transition macro runs, and no post-close (or update) hook
fires. -/
theorem claim_C7_close_idempotent (hooks : HookEnv) (d : PileData)
    (hen : d.enabled = true) (hc : d.isContainer = true) (hcl : d.closed = true)
    (h1 : hooks.preClose = true) (h2 : hooks.preUpdate = true) :
    closeItemPile hooks d = OpResult.done d emptyDiff [] := by
  obtain ⟨en, ic, cl, lk, os, cs, ls, hm, dw⟩ := d
  simp only at hen hc hcl
  subst hen; subst hc; subst hcl
  simp [closeItemPile, updateItemPile, prependEffects, diffPile, diffField,
    macroEffects, broadcastEffects, emptyDiff, h1, h2]

theorem claim_C7_witness :
    closeItemPile allowAll ⟨true, true, true, false, true, true, true, true, DeleteWhenEmpty.yes⟩ =
      OpResult.done ⟨true, true, true, false, true, true, true, true, DeleteWhenEmpty.yes⟩
        emptyDiff [] :=
  claim_C7_close_idempotent allowAll _ rfl rfl rfl rfl rfl

/- ------------------------------------------------------------------ -/
/- Claim C8: the auto-deletion rule.                                   -/
/- ------------------------------------------------------------------ -/

/-- Claim C8: after a removal operation that is not suppressed as a
transfer sub-step, the pile document is deleted if and only if the
pile is enabled, its document is of the auto-deletable kind (a token
document), its deleteWhenEmpty flag resolves to true (explicit yes, or
unset with the global default setting true), and the pile is now
empty; otherwise the pile survives with its post-removal inventory (in
particular a pile with deleteWhenEmpty = no survives with zero
items). -/
theorem claim_C8_autodelete_iff (glob : Bool) (p : Pile) (reqs : List (Nat × Int))
    (out : Option Pile) (recs : List RemovedRec)
    (h : removeItemsFromPile glob p reqs = some (out, recs)) :
    ∃ inv2, removeItems p.inv reqs = some (inv2, recs) ∧
      ((out = none ↔
        (p.isTokenDocument = true ∧ p.data.enabled = true ∧
         resolveDeleteWhenEmpty glob p.data.deleteWhenEmpty = true ∧
         isItemPileEmpty { p with inv := inv2 } = true)) ∧
       (out = none ∨ out = some { p with inv := inv2 })) := by
  unfold removeItemsFromPile at h
  cases hrem : removeItems p.inv reqs with
  | none => rw [hrem] at h; exact Option.noConfusion h
  | some pr =>
    obtain ⟨inv2, recs0⟩ := pr
    rw [hrem] at h
    simp only at h
    split at h
    next hdel =>
      have hcond := hdel
      simp only [checkItemPileShouldBeDeleted, Bool.and_eq_true] at hcond
      injection h with h1
      have hout : out = none := congrArg Prod.fst h1.symm
      have hrecs : recs0 = recs := congrArg Prod.snd h1
      subst hout; subst hrecs
      exact ⟨inv2, rfl,
        ⟨fun _ => ⟨hcond.1, hcond.2.1, hcond.2.2.1, hcond.2.2.2⟩, fun _ => rfl⟩,
        Or.inl rfl⟩
    next hdel =>
      injection h with h1
      have hout : out = some { p with inv := inv2 } := congrArg Prod.fst h1.symm
      have hrecs : recs0 = recs := congrArg Prod.snd h1
      subst hout; subst hrecs
      refine ⟨inv2, rfl, ⟨fun hcontra => Option.noConfusion hcontra, fun hcond => ?_⟩,
        Or.inr rfl⟩
      exfalso
      apply hdel
      simp only [checkItemPileShouldBeDeleted, Bool.and_eq_true]
      exact ⟨hcond.1, hcond.2.1, hcond.2.2.1, hcond.2.2.2⟩

theorem claim_C8_witness :
    removeItemsFromPile true
        ⟨⟨true, false, false, false, false, false, false, false, DeleteWhenEmpty.no⟩,
         [⟨1, 0, 0, 2⟩], [], true⟩ [(1, 5)] =
      some (some ⟨⟨true, false, false, false, false, false, false, false, DeleteWhenEmpty.no⟩,
              [], [], true⟩,
            [⟨⟨1, 0, 0, 2⟩, 2, true⟩]) ∧
    (∃ inv2, removeItems [⟨1, 0, 0, 2⟩] [(1, 5)] = some (inv2, [⟨⟨1, 0, 0, 2⟩, 2, true⟩]) ∧
      ((some (⟨⟨true, false, false, false, false, false, false, false, DeleteWhenEmpty.no⟩,
              [], [], true⟩ : Pile) = none ↔
        (true = true ∧ true = true ∧
         resolveDeleteWhenEmpty true DeleteWhenEmpty.no = true ∧
         isItemPileEmpty ⟨⟨true, false, false, false, false, false, false, false, DeleteWhenEmpty.no⟩,
           inv2, [], true⟩ = true)) ∧
       (some (⟨⟨true, false, false, false, false, false, false, false, DeleteWhenEmpty.no⟩,
              [], [], true⟩ : Pile) = none ∨
        some (⟨⟨true, false, false, false, false, false, false, false, DeleteWhenEmpty.no⟩,
              [], [], true⟩ : Pile) =
          some ⟨⟨true, false, false, false, false, false, false, false, DeleteWhenEmpty.no⟩,
            inv2, [], true⟩))) :=
  ⟨by decide,
   claim_C8_autodelete_iff true
     ⟨⟨true, false, false, false, false, false, false, false, DeleteWhenEmpty.no⟩,
      [⟨1, 0, 0, 2⟩], [], true⟩
     [(1, 5)]
     (some ⟨⟨true, false, false, false, false, false, false, false, DeleteWhenEmpty.no⟩,
        [], [], true⟩)
     [⟨⟨1, 0, 0, 2⟩, 2, true⟩]
     (by decide)⟩

/- ------------------------------------------------------------------ -/
/- Claim C9: attribute quantity validation.                            -/
/- ------------------------------------------------------------------ -/

/-- Claim C9 failing case: the claim states that a quantity that is not a
number or not greater than zero makes addAttributes and
removeAttributes throw a ValidationError before dispatch.  The guard
in the source is !lib.is_real_number(quantity) && quantity > 0, which
is false for every numeric quantity, including zero and negative ones:
a quantity of -5 (or 0) is invalid per the claim (and per the error
message in the source) yet no error is thrown and the request is
dispatched. -/
theorem claim_C9_validation_gap :
    quantityValidPerSpec (JSVal.num (-5)) = false ∧
    addAttributesQuantityThrows (JSVal.num (-5)) = false ∧
    removeAttributesQuantityThrows (JSVal.num 0) = false ∧
    (∀ n : Int, addAttributesQuantityThrows (JSVal.num n) = false) ∧
    (∀ n : Int, removeAttributesQuantityThrows (JSVal.num n) = false) := by
  refine ⟨rfl, rfl, rfl, fun n => rfl, fun n => rfl⟩

/- ------------------------------------------------------------------ -/
/- Claim C2: the transfer round trip.                                  -/
/- ------------------------------------------------------------------ -/

/-- Claim C2 counterexample: source A holds two lines (ids 1 and 2) that
share the name and type identity, with quantities 2 and 3, and target
B holds one line of that identity with quantity 5.  Transferring one
unit from each A line to B and then transferring the exact returned
records back leaves the A line with id 2 at quantity 2 instead of its
original 3 (one unit is destroyed): during the add step both removed
records match the same B line against the same pre-call snapshot, so
the second queued absolute-value update overwrites the first, and on
the way back both return records match the first A line. -/
theorem claim_C2_counterexample :
    roundTrip [⟨1, 7, 9, 2⟩, ⟨2, 7, 9, 3⟩] [⟨3, 7, 9, 5⟩] [(1, 1), (2, 1)] =
      some ([⟨1, 7, 9, 2⟩, ⟨2, 7, 9, 2⟩], [⟨3, 7, 9, 5⟩]) ∧
    qtyOrZero [⟨1, 7, 9, 2⟩, ⟨2, 7, 9, 2⟩] 2 ≠
      qtyOrZero [⟨1, 7, 9, 2⟩, ⟨2, 7, 9, 3⟩] 2 := by
  decide

/-- Claim C2 amended: transferItems(A,B,items) followed by
transferItems(B,A,itemsReturned) with exactly the returned records
restores the line quantities of B exactly and the per-identity
(name and type) totals of A, provided the requested ids are pairwise
distinct and present on A with positive requested quantities, all line
quantities are positive, document ids are pairwise distinct across A
and B, and no two lines of A share the same name and type identity;
the composed add step always uses the actually-removed quantities,
never the requested quantities. -/
theorem claim_C2_roundTrip_restores (A B : Inventory) (reqs : List (Nat × Int))
    (hnd : ((A ++ B).map Item.id).Nodup)
    (hpairs : (A.map pairOf).Nodup)
    (hq : ∀ it ∈ A ++ B, 1 ≤ it.quantity)
    (hreqnd : (reqs.map Prod.fst).Nodup)
    (hreqs : ∀ p ∈ reqs, 1 ≤ p.2 ∧ (findItem A p.1).isSome) :
    ∃ A3, roundTrip A B reqs = some (A3, B) ∧
      ∀ nm t, totalQty A3 nm t = totalQty A nm t := by
  rw [List.map_append] at hnd
  have hAnd : (A.map Item.id).Nodup := (List.nodup_append.mp hnd).1
  have hBnd : (B.map Item.id).Nodup := (List.nodup_append.mp hnd).2.1
  have hdisj : ∀ a ∈ A, ∀ b ∈ B, a.id ≠ b.id := by
    have hd := (List.nodup_append.mp hnd).2.2
    intro a ha b hb hc
    exact hd (List.mem_map_of_mem Item.id ha)
      (by rw [hc]; exact List.mem_map_of_mem Item.id hb)
  have hall : ∀ p ∈ reqs, (findItem A p.1).isSome := fun p hp => (hreqs p hp).2
  have hqB : ∀ b ∈ B, 1 ≤ b.quantity := fun b hb =>
    hq b (List.mem_append.mpr (Or.inr hb))
  obtain ⟨rcs, hret⟩ := transfer_ret_eq A B reqs hAnd hBnd hpairs hreqnd hall hdisj hqB
  refine ⟨A.filter (fun a => !(lineDead reqs a)) ++ retCreates A B reqs, ?_, ?_⟩
  · unfold roundTrip
    rw [transfer_fwd_eq A B reqs hAnd hBnd hpairs hreqnd hall hdisj]
    show (match transferItems (targetAfter A B reqs) (A.filterMap (remLine reqs))
        ((reqs.filterMap (fwdRec A B) ++
          (fwdCreates A B reqs).map (fun it => (⟨it, it.quantity⟩ : AddedRec))).map
            (fun rc => (rc.item.id, rc.quantity))) with
      | none => none
      | some (B3, A3, _) => some (A3, B3)) = _
    rw [fwd_records_pairs A B reqs, hret]
  · intro nm t
    rw [totalQty_append, totalQty_filter_split A reqs nm t,
      retCreates_totalQty A B reqs hAnd hreqnd hall nm t]
    exact add_comm _ _

theorem claim_C2_witness :
    ((([(⟨1, 10, 20, 5⟩ : Item)] ++ [(⟨2, 10, 20, 3⟩ : Item)]).map Item.id).Nodup) ∧
    (([(⟨1, 10, 20, 5⟩ : Item)].map pairOf).Nodup) ∧
    (∀ it ∈ [(⟨1, 10, 20, 5⟩ : Item)] ++ [(⟨2, 10, 20, 3⟩ : Item)], 1 ≤ it.quantity) ∧
    (([((1 : Nat), (2 : Int))].map Prod.fst).Nodup) ∧
    (∀ p ∈ [((1 : Nat), (2 : Int))],
      1 ≤ p.2 ∧ (findItem [(⟨1, 10, 20, 5⟩ : Item)] p.1).isSome) ∧
    (∃ A3, roundTrip [(⟨1, 10, 20, 5⟩ : Item)] [(⟨2, 10, 20, 3⟩ : Item)] [((1 : Nat), (2 : Int))] =
        some (A3, [(⟨2, 10, 20, 3⟩ : Item)]) ∧
      ∀ nm t, totalQty A3 nm t = totalQty [(⟨1, 10, 20, 5⟩ : Item)] nm t) :=
  ⟨by decide, by decide, by decide, by decide, by decide,
    claim_C2_roundTrip_restores [(⟨1, 10, 20, 5⟩ : Item)] [(⟨2, 10, 20, 3⟩ : Item)]
      [((1 : Nat), (2 : Int))] (by decide) (by decide) (by decide) (by decide) (by decide)⟩

end ItemPiles
